import Mathlib

/-!
Verification of the patient-narrative generation pipeline
(`src/narrative_generator.py`, `src/field_mapper.py`, `src/ai_enhancer.py`).

The development shallowly embeds the Python source:
* Python strings are `String` / `List Char`; the case maps and character
  classes (`\w`, `\d`, upper/lower) are modelled at ASCII level, which covers
  every literal the source manipulates.
* Python `dict`s are association lists looked up by first binding (the
  source's dicts have unique keys, so the order convention is immaterial).
* Fallible code returns `Except String α`; a raised `ValueError`/`IndexError`
  is an `Except.error` carrying (an abbreviation of) the message text.
* `re.sub` calls are embedded as explicit left-to-right scanners over
  `List Char` that reproduce the leftmost, non-overlapping match semantics of
  the Python `re` module for the specific patterns used by the source,
  including `\b` word-boundary handling.
-/

namespace PatientNarrative

/-- Python `\w` (word character) at ASCII level: letters, digits, underscore. -/
def isWordChar (c : Char) : Bool := c.isAlphanum || c = '_'

/-- Case-insensitive prefix test: `pat` is a prefix of `s` up to ASCII case,
as used by `re` matching under `re.IGNORECASE`. -/
def ciPrefix : List Char → List Char → Bool
  | [], _ => true
  | _ :: _, [] => false
  | p :: ps, c :: cs => (p.toLower = c.toLower) && ciPrefix ps cs

/-- Python `str.upper()` at ASCII level (every flag and key the source
uppercases is ASCII). -/
def pyUpper (s : String) : String := String.mk (s.data.map Char.toUpper)

/-- Python whitespace for `str.strip`: space, tab, newline, carriage return,
vertical tab, form feed. -/
def pyIsSpace (c : Char) : Bool :=
  c = ' ' || c = '\t' || c = '\n' || c = '\r' || c = Char.ofNat 11 || c = Char.ofNat 12

/-- Python `str.strip()`: remove leading and trailing whitespace. -/
def pyStrip (s : String) : String :=
  String.mk (((s.data.dropWhile pyIsSpace).reverse.dropWhile pyIsSpace).reverse)

/-- A Python runtime value as it occurs in the field-value dictionaries:
`None`, a string, an integer (ages and study days), or a float NaN (what
pandas puts in a cell with missing data).  For NaN only the behaviour the
source code exercises is modelled: `str(nan) = "nan"`, `nan` compares unequal
to everything (so `nan in (None, "", "nan", "NaN")` is false), and `nan` is
truthy. -/
inductive PyValue where
  | none
  | str (s : String)
  | intV (n : Int)
  | nanV
deriving DecidableEq, Repr

/-- Python `str(value)` for the embedded values. -/
def pyStr : PyValue → String
  | .none => "None"
  | .str s => s
  | .intV n => toString n
  | .nanV => "nan"

/-- Python truthiness for the embedded values. -/
def pyTruthy : PyValue → Bool
  | .none => false
  | .str s => s ≠ ""
  | .intV n => n ≠ 0
  | .nanV => true

/-- The test `value in (None, "", "nan", "NaN")` of
`NarrativeGenerator.fill_template` (`narrative_generator.py:113`).  Membership
uses `==`, so the Python string `"None"` and a float NaN are NOT caught. -/
def isMissingSentinel : PyValue → Bool
  | .none => true
  | .str s => s = "" || s = "nan" || s = "NaN"
  | .intV _ => false
  | .nanV => false

/-- First-binding lookup in an association list (the embedding of a Python
dict; the source's dicts have unique keys). -/
def alookup {α : Type} (m : List (String × α)) (k : String) : Option α :=
  (m.find? (fun p => p.1 = k)).map (·.2)

/-! ## Template parsing and filling (`NarrativeGenerator.fill_template`) -/

/-- A parsed piece of a format string: literal characters or a named
replacement field, as produced by `string.Formatter().vformat`. -/
inductive Chunk where
  | lit (cs : List Char)
  | field (name : String)
deriving DecidableEq, Repr

/-- Parse of a `str.format`-style template into chunks, mirroring
`Formatter.vformat`'s parser for the shapes the source's templates use:
`{{` and `}}` are literal braces, `{name}` is a named field, a lone `{` or
`}` raises `ValueError`.  (Attribute/index/format-spec syntax inside a field
is not split off: the source's templates use plain `{name}` placeholders.) -/
def parseChunks : List Char → Except String (List Chunk)
  | [] => .ok []
  | '{' :: '{' :: rest => do pure (Chunk.lit ['{'] :: (← parseChunks rest))
  | '}' :: '}' :: rest => do pure (Chunk.lit ['}'] :: (← parseChunks rest))
  | '{' :: rest =>
      let name := rest.takeWhile (fun c => c ≠ '}')
      let after := rest.drop name.length
      if after.head? = some '}' then do
        pure (Chunk.field (String.mk name) :: (← parseChunks (after.drop 1)))
      else .error "Single \x7b encountered in format string"
  | '}' :: _ => .error "Single \x7d encountered in format string"
  | c :: rest => do pure (Chunk.lit [c] :: (← parseChunks rest))
termination_by s => s.length
decreasing_by
  all_goals simp [List.length_drop]
  all_goals omega

/-- Rendering of one field value by the `_SafeDict` built in `fill_template`
(`narrative_generator.py:111-117`) followed by `format(value, "")`: a value
equal to `None`, `""`, `"nan"` or `"NaN"` becomes the visible marker, every
other value is stringified; a name with no binding at all hits
`_SafeDict.__missing__` (`narrative_generator.py:247-249`) and also becomes
the marker. -/
def renderField (vals : List (String × PyValue)) (name : String) : String :=
  match alookup vals name with
  | some v => if isMissingSentinel v then "[NOT AVAILABLE]" else pyStr v
  | none => "[NOT AVAILABLE]"

/-- Render a chunk list.  An empty or all-digit field name goes through
`str.format`'s positional auto-numbering and indexes the empty `args` tuple,
raising `IndexError` (which `fill_template` does not catch). -/
def renderChunks (vals : List (String × PyValue)) : List Chunk → Except String String
  | [] => .ok ""
  | Chunk.lit cs :: rest => do pure (String.mk cs ++ (← renderChunks vals rest))
  | Chunk.field name :: rest =>
      if name.data = [] || name.data.all Char.isDigit then
        .error "IndexError: tuple index out of range"
      else do pure (renderField vals name ++ (← renderChunks vals rest))

/-- `NarrativeGenerator.fill_template` (`narrative_generator.py:108-123`).
Note that the `except KeyError` branch of the source is unreachable for named
placeholders: the `_SafeDict` supplies `"[NOT AVAILABLE]"` for missing names
instead of raising. -/
def fill_template (t : String) (vals : List (String × PyValue)) : Except String String :=
  parseChunks t.data >>= renderChunks vals

/-! ## Template selection (`NarrativeGenerator.select_template`) -/

/-- One paragraph spec of a narrative template. -/
structure Paragraph where
  number : Int
  template : String
  variations : Option (List (String × String))
deriving DecidableEq, Repr

/-- A narrative template: identifier plus ordered paragraphs. -/
structure Template where
  template_id : String
  paragraphs : List Paragraph
deriving DecidableEq, Repr

/-- The event flags `select_template` consults. -/
structure EventData where
  serious_event : Option String
  hospitalization : Option String
  other_medically_important : Option String
deriving DecidableEq, Repr

/-- `(event_data.get(k) or "").upper()` (`narrative_generator.py:50-52`). -/
def normFlag (v : Option String) : String := pyUpper (v.getD "")

/-- The template configuration dictionary, keyed by template name. -/
def TemplateConfig := List (String × Template)

/-- The error message of the final `raise ValueError`
(`narrative_generator.py:102-106`), carrying the normalized flags and the
available template keys (the Python list repr's quoting is elided). -/
def noTemplateMsg (serious hosp medImp : String) (keys : List String) : String :=
  "No suitable template found. Event data: serious=" ++ serious ++
  ", hospitalization=" ++ hosp ++ ", medically_important=" ++ medImp ++
  ". Available templates: " ++ String.intercalate ", " keys

/-- `NarrativeGenerator.select_template` (`narrative_generator.py:47-106`):
the fixed priority cascade over the normalized tri-state flags. -/
def select_template (ev : EventData) (cfg : TemplateConfig) : Except String Template :=
  let serious := normFlag ev.serious_event
  let hosp := normFlag ev.hospitalization
  let medImp := normFlag ev.other_medically_important
  -- Priority 1: hospitalization SAE
  match (if serious = "Y" && hosp = "Y" then alookup cfg "sae_hospitalization" else none) with
  | some t => .ok t
  | none =>
  -- Priority 2: medically important SAE (no hospitalization)
  match (if serious = "Y" && hosp = "N" && medImp = "Y" then
            alookup cfg "sae_medically_important" else none) with
  | some t => .ok t
  | none =>
  -- Priority 3: any SAE without hospitalization (fallback)
  match (if serious = "Y" && hosp ≠ "Y" then alookup cfg "sae_medically_important" else none) with
  | some t => .ok t
  | none =>
  -- Priority 4: any SAE (generic template, then hospitalization as ultimate fallback)
  match (if serious = "Y" then alookup cfg "sae_generic" else none) with
  | some t => .ok t
  | none =>
  match (if serious = "Y" then alookup cfg "sae_hospitalization" else none) with
  | some t => .ok t
  | none =>
  -- Priority 5: non-serious AE (also the default when the serious flag is missing)
  match alookup cfg "ae_non_serious" with
  | some t => .ok t
  | none => .error (noTemplateMsg serious hosp medImp (cfg.map (·.1)))

/-! ## Value mapping and date formatting (`field_mapper.py`) -/

/-- Python `a or b` on an optional string, where `None` and `""` are falsy
(the combination used at `field_mapper.py:85`). -/
def pyOrOpt (a b : Option String) : Option String :=
  match a with
  | some s => if s = "" then b else some s
  | none => b

/-- `FieldMapper.apply_value_mapping` (`field_mapper.py:78-89`) for a string
raw value: look up the uppercased value, `or` the raw value, and fall back to
the raw value when the combined lookup is `None`. -/
def apply_value_mapping (value_map : Option (List (String × String)))
    (value : Option String) : Option String :=
  match value with
  | none => none
  | some v =>
    match value_map with
    | none => some v
    | some vm =>
      if vm = [] then some v
      else
        match pyOrOpt (alookup vm (pyUpper v)) (alookup vm v) with
        | none => some v
        | some m => some m

/-- Month abbreviations of `strftime("%b")` in the C locale. -/
def monthAbbrev : Nat → String
  | 1 => "Jan" | 2 => "Feb" | 3 => "Mar" | 4 => "Apr" | 5 => "May" | 6 => "Jun"
  | 7 => "Jul" | 8 => "Aug" | 9 => "Sep" | 10 => "Oct" | 11 => "Nov" | 12 => "Dec"
  | _ => ""

/-- Gregorian leap year, as in `datetime`. -/
def isLeapYear (y : Nat) : Bool := y % 4 = 0 && (y % 100 ≠ 0 || y % 400 = 0)

/-- Days in a month, as validated by the `datetime` constructor. -/
def daysInMonth (y m : Nat) : Nat :=
  if m = 2 then (if isLeapYear y then 29 else 28)
  else if m = 4 || m = 6 || m = 9 || m = 11 then 30 else 31

/-- Numeric value of a digit string. -/
def digitsToNat (ds : List Char) : Nat := ds.foldl (fun a c => a * 10 + (c.toNat - 48)) 0

/-- `%m` of `_strptime` (regex `1[0-2]|0[1-9]|[1-9]`): consume a month number
and return it with the rest of the input, or fail. -/
def parseMonth : List Char → Option (Nat × List Char)
  | '1' :: c :: rest =>
      if '0' ≤ c ∧ c ≤ '2' then some (10 + (c.toNat - 48), rest)
      else some (1, c :: rest)
  | '0' :: c :: rest => if '1' ≤ c ∧ c ≤ '9' then some (c.toNat - 48, rest) else none
  | c :: rest => if '1' ≤ c ∧ c ≤ '9' then some (c.toNat - 48, rest) else none
  | [] => none

/-- `%d` of `_strptime` (regex `3[01]|[12]\d|0[1-9]|[1-9]`). -/
def parseDay : List Char → Option (Nat × List Char)
  | '3' :: c :: rest =>
      if c = '0' ∨ c = '1' then some (30 + (c.toNat - 48), rest)
      else some (3, c :: rest)
  | '0' :: c :: rest => if '1' ≤ c ∧ c ≤ '9' then some (c.toNat - 48, rest) else none
  | c1 :: c :: rest =>
      if (c1 = '1' ∨ c1 = '2') ∧ c.isDigit then
        some ((c1.toNat - 48) * 10 + (c.toNat - 48), rest)
      else if '1' ≤ c1 ∧ c1 ≤ '9' then some (c1.toNat - 48, c :: rest) else none
  | [c] => if '1' ≤ c ∧ c ≤ '9' then some (c.toNat - 48, []) else none
  | [] => none

/-- `%Y` of `_strptime`: exactly four digits. -/
def parseYear4 : List Char → Option (Nat × List Char)
  | a :: b :: c :: d :: rest =>
      if a.isDigit ∧ b.isDigit ∧ c.isDigit ∧ d.isDigit then
        some (digitsToNat [a, b, c, d], rest)
      else none
  | _ => none

/-- `datetime.strptime(s, "%Y-%m-%d")` (used at `narrative_generator.py:134`
and `field_mapper.py:173`): parse and validate, consuming the whole string;
the `datetime` constructor additionally requires year ≥ 1 and a day that
exists in the month. -/
def strptimeYmd (s : List Char) : Option (Nat × Nat × Nat) := do
  let (y, r1) ← parseYear4 s
  match r1 with
  | '-' :: r2 =>
    let (m, r3) ← parseMonth r2
    match r3 with
    | '-' :: r4 =>
      let (d, r5) ← parseDay r4
      if r5 = [] ∧ 1 ≤ y ∧ d ≤ daysInMonth y m then pure (y, m, d) else none
    | _ => none
  | _ => none

/-- `%b` of `_strptime`: a case-insensitive month abbreviation. -/
def parseMonthAbbrev (s : List Char) : Option (Nat × List Char) :=
  match s with
  | a :: b :: c :: rest =>
      let w := String.mk [a.toLower, b.toLower, c.toLower]
      match (List.range' 1 12).find? (fun m => (monthAbbrev m).toLower = w) with
      | some m => some (m, rest)
      | none => none
  | _ => none

/-- `datetime.strptime(s, "%d-%b-%Y")` (`field_mapper.py:177`). -/
def strptimeDbY (s : List Char) : Option (Nat × Nat × Nat) := do
  let (d, r1) ← parseDay s
  match r1 with
  | '-' :: r2 =>
    let (m, r3) ← parseMonthAbbrev r2
    match r3 with
    | '-' :: r4 =>
      let (y, r5) ← parseYear4 r4
      if r5 = [] ∧ 1 ≤ y ∧ d ≤ daysInMonth y m then pure (y, m, d) else none
    | _ => none
  | _ => none

/-- Zero-pad a number to two decimal digits (`%d`; day numbers are ≤ 31). -/
def pad2 (n : Nat) : String :=
  String.mk [Nat.digitChar (n / 10 % 10), Nat.digitChar (n % 10)]

/-- Zero-pad a number to four decimal digits (`%Y`; years are ≤ 9999, and
CPython's rendering of years below 1000 is platform-dependent — the model
zero-pads). -/
def pad4 (n : Nat) : String :=
  String.mk [Nat.digitChar (n / 1000 % 10), Nat.digitChar (n / 100 % 10),
             Nat.digitChar (n / 10 % 10), Nat.digitChar (n % 10)]

/-- `parsed.strftime("%d-%b-%Y")`, shared by rule 2 of the business rules
(`narrative_generator.py:135`) and by `FieldMapper.format_field`
(`field_mapper.py:99`). -/
def strftimeDmY (y m d : Nat) : String :=
  pad2 d ++ "-" ++ monthAbbrev m ++ "-" ++ pad4 y

/-- `FieldMapper._parse_date` (`field_mapper.py:168-180`) on a string value:
try ISO form, then `DD-Mon-YYYY` form. -/
def parse_date (s : String) : Option (Nat × Nat × Nat) :=
  match strptimeYmd s.data with
  | some d => some d
  | none => strptimeDbY s.data

/-- `FieldMapper.format_field` (`field_mapper.py:91-104`) on a string value:
only the `"date"` formatter does anything; an unparseable value passes
through unchanged. -/
def format_field (formatter : Option String) (value : Option String) : Option String :=
  match value with
  | none => none
  | some v =>
    if formatter = some "date" then
      match parse_date v with
      | some (y, m, d) => some (strftimeDmY y m d)
      | none => some v
    else some v

/-! ## Business rules (`NarrativeGenerator.apply_business_rules`)

Each `re.sub` is an explicit left-to-right scanner: at each position it tests
the pattern; on a match it emits the replacement and resumes after the
matched span (carrying the word-ness of the last matched character of the
ORIGINAL text, which is what decides a later `\b`), otherwise it copies one
character.  This reproduces `re.sub`'s leftmost non-overlapping semantics for
the source's patterns. -/

/-- Word-bounded literal-pattern match at the head of `s`:
`\b pat \b` (case-insensitively when `ci`), given the word-ness of the
preceding character (`prevWord`; a string start counts as non-word). -/
def wbMatchAt (ci : Bool) (pat : List Char) (prevWord : Bool) (s : List Char) : Bool :=
  pat ≠ [] &&
  (if ci then ciPrefix pat s else pat.isPrefixOf s) &&
  (match s with
   | [] => false
   | c :: _ => prevWord != isWordChar c) &&
  (let lastc := s.getD (pat.length - 1) ' '
   match s.drop pat.length with
   | [] => isWordChar lastc
   | c :: _ => isWordChar lastc != isWordChar c)

/-- Scanner for `re.sub(r"\b pat \b", repl, s)` with a literal pattern. -/
def wbGo (ci : Bool) (pat repl : List Char) (prevWord : Bool) : List Char → List Char
  | [] => []
  | c :: rest =>
    if wbMatchAt ci pat prevWord (c :: rest) then
      repl ++ wbGo ci pat repl (isWordChar ((c :: rest).getD (pat.length - 1) ' '))
        (rest.drop (pat.length - 1))
    else c :: wbGo ci pat repl (isWordChar c) rest
termination_by s => s.length
decreasing_by
  all_goals simp [List.length_drop]
  all_goals omega

/-- `re.sub` of a word-bounded literal pattern over a whole string. -/
def wbSub (ci : Bool) (pat repl : List Char) (s : List Char) : List Char :=
  wbGo ci pat repl false s

/-- Rule 1 (`narrative_generator.py:128`):
`re.sub(r"\blast dose\b", "most recent dose", text, flags=re.IGNORECASE)`. -/
def rule1 (s : List Char) : List Char :=
  wbSub true "last dose".data "most recent dose".data s

/-- The shape `\d{4}-\d{2}-\d{2}` at the head of the list. -/
def isoShapeAt (s : List Char) : Bool :=
  match s with
  | a :: b :: c :: d :: '-' :: e :: f :: '-' :: g :: h :: _ =>
    a.isDigit && b.isDigit && c.isDigit && d.isDigit &&
    e.isDigit && f.isDigit && g.isDigit && h.isDigit
  | _ => false

/-- Match of rule 2's pattern `\b\d{4}-\d{2}-\d{2}\b` at the head of `s`
(the edge characters are digits, so `\b` holds iff the neighbour is not a
word character). -/
def iso2MatchAt (prevWord : Bool) (s : List Char) : Bool :=
  !prevWord && isoShapeAt s &&
  (match s.drop 10 with
   | [] => true
   | c :: _ => !isWordChar c)

/-- Rule 2's replacement function `_date_repl`
(`narrative_generator.py:131-137`): re-render a parseable ISO span, keep an
unparseable one. -/
def rule2Repl (span : List Char) : List Char :=
  match strptimeYmd span with
  | some (y, m, d) => (strftimeDmY y m d).data
  | none => span

/-- Scanner for rule 2 (`narrative_generator.py:139`). -/
def rule2Go (prevWord : Bool) : List Char → List Char
  | [] => []
  | c :: rest =>
    if iso2MatchAt prevWord (c :: rest) then
      rule2Repl ((c :: rest).take 10) ++ rule2Go true (rest.drop 9)
    else c :: rule2Go (isWordChar c) rest
termination_by s => s.length
decreasing_by
  all_goals simp [List.length_drop]
  all_goals omega

/-- Rule 2: normalize ISO dates to `DD-Mon-YYYY`. -/
def rule2 (s : List Char) : List Char := rule2Go false s

/-- Scanner for rules 3 and 4 (`narrative_generator.py:142-155`):
`re.sub(r"(marker)([^\.]+)", lambda m: m.group(1) + m.group(2).lower(), text,
flags=re.IGNORECASE)` — on a case-insensitive occurrence of `marker` followed
by at least one non-period character, keep the matched marker text and
lowercase up to the next period. -/
def lamGo (marker : List Char) : List Char → List Char
  | [] => []
  | c :: rest =>
    if h : ciPrefix marker (c :: rest) && !((c :: rest).drop marker.length).isEmpty &&
        decide (((c :: rest).drop marker.length).head? ≠ some '.') then
      (c :: rest).take marker.length ++
        (((c :: rest).drop marker.length).takeWhile (fun x => x ≠ '.')).map Char.toLower ++
        lamGo marker (((c :: rest).drop marker.length).dropWhile (fun x => x ≠ '.'))
    else c :: lamGo marker rest
termination_by s => s.length
decreasing_by
  · simp only [Bool.and_eq_true, decide_eq_true_eq] at h
    obtain ⟨⟨hm, hne⟩, hdot⟩ := h
    have key : ∀ (l : List Char), l.isEmpty = false → l.head? ≠ some '.' →
        (l.dropWhile (fun x => decide (x ≠ '.'))).length < l.length := by
      intro l hl hd
      cases l with
      | nil => simp at hl
      | cons a as =>
        have ha : ¬ (a = '.') := fun hcon => hd (by rw [hcon]; rfl)
        have h2 : (as.dropWhile (fun x => !decide (x = '.'))).length ≤ as.length :=
          (List.dropWhile_suffix _).length_le
        simp [List.dropWhile, ha]
        omega
    refine lt_of_lt_of_le (key _ (by simpa using hne) hdot) ?_
    simp [List.length_drop]
  · simp

/-- Rule 3: lowercase the action-taken clause. -/
def rule3 (s : List Char) : List Char :=
  lamGo "action taken with study drug was ".data s

/-- Rule 4: lowercase the causality clause. -/
def rule4 (s : List Char) : List Char :=
  lamGo "assessed the event as ".data s

/-- Scanner for rule 5 (`narrative_generator.py:158`):
`re.sub(r"(\d+)-YEARS-old", r"\1-year-old", text, flags=re.IGNORECASE)`.
A match must start at a digit; the captured run is the maximal digit run
(a shorter run cannot be followed by `-`). -/
def r5Go : List Char → List Char
  | [] => []
  | c :: rest =>
    if c.isDigit then
      if ciPrefix "-years-old".data (rest.dropWhile Char.isDigit) then
        (c :: rest.takeWhile Char.isDigit) ++ "-year-old".data ++
          r5Go ((rest.dropWhile Char.isDigit).drop 10)
      else c :: r5Go rest
    else c :: r5Go rest
termination_by s => s.length
decreasing_by
  · rename_i rest hdig hci
    have h2 : (rest.dropWhile Char.isDigit).length ≤ rest.length :=
      (List.dropWhile_suffix _).length_le
    simp [List.length_drop]
    omega
  · simp
  · simp

/-- Rule 5: fix age formatting. -/
def rule5 (s : List Char) : List Char := r5Go s

/-- Rule 6 (`narrative_generator.py:161-165`): the five case-sensitive
word-bounded race/ethnicity replacements, in source order. -/
def rule6 (s : List Char) : List Char :=
  wbSub false "HISPANIC OR LATINO".data "Hispanic or Latino".data
    (wbSub false "NOT HISPANIC OR LATINO".data "Not Hispanic or Latino".data
      (wbSub false "ASIAN".data "Asian".data
        (wbSub false "BLACK OR AFRICAN AMERICAN".data "Black or African American".data
          (wbSub false "WHITE".data "White".data s))))

/-- The character class `[A-Z]`. -/
def isUpperAZ (c : Char) : Bool := 'A' ≤ c && c ≤ 'Z'

/-- Scanner for rule 7 (`narrative_generator.py:168-172`):
`re.sub(r"(SAE of )([A-Z])", lambda m: m.group(1) + m.group(2).lower(), text)`
(case-sensitive). -/
def r7Go : List Char → List Char
  | [] => []
  | c :: rest =>
    let after := (c :: rest).drop 7
    if "SAE of ".data.isPrefixOf (c :: rest) && (after.head?.map isUpperAZ).getD false then
      "SAE of ".data ++ (after.head?.getD ' ').toLower :: r7Go (after.drop 1)
    else c :: r7Go rest
termination_by s => s.length
decreasing_by
  all_goals simp [List.length_drop]
  all_goals omega

/-- Rule 7: lowercase the first letter after "SAE of ". -/
def rule7 (s : List Char) : List Char := r7Go s

/-- `NarrativeGenerator.apply_business_rules`
(`narrative_generator.py:125-174`): rules 1–7 in source order. -/
def apply_business_rules (s : String) : String :=
  String.mk (rule7 (rule6 (rule5 (rule4 (rule3 (rule2 (rule1 s.data)))))))

/-! ## Paragraph and narrative assembly -/

/-- `NarrativeGenerator.generate_paragraph` (`narrative_generator.py:176-188`):
choose the end-date variation by truthiness of the resolved `end_date`,
append a truthy variation text to the base template with a single space,
then fill and normalize. -/
def generate_paragraph (cfg : Paragraph) (vals : List (String × PyValue)) :
    Except String String :=
  let base := cfg.template
  let tt :=
    match cfg.variations with
    | none => base
    | some vs =>
      if vs = [] then base
      else
        let key := if pyTruthy ((alookup vals "end_date").getD PyValue.none) then
          "with_end_date" else "without_end_date"
        match alookup vs key with
        | some vt => if vt = "" then base else base ++ " " ++ vt
        | none => base
  (fill_template tt vals).map apply_business_rules

/-- `OpenAINarrativeEnhancer.enhance` (`ai_enhancer.py:58-100`), with the
API call abstracted as its outcome: an exception (any kind) or a response
whose message content is an optional string.  On an exception the baseline
is returned unchanged; on success an empty/absent content falls back to the
baseline, and the result is stripped. -/
def enhance (baseline : String) (callResult : Except String (Option String)) : String :=
  match callResult with
  | .error _ => baseline
  | .ok content =>
    pyStrip (match content with
             | some c => if c = "" then baseline else c
             | none => baseline)

/-- `sorted(template["paragraphs"], key=lambda p: p["number"])`
(`narrative_generator.py:195`): stable sort by paragraph number. -/
def sortParagraphs (ps : List Paragraph) : List Paragraph :=
  ps.mergeSort (fun a b => a.number ≤ b.number)

/-- The deterministic baseline of `NarrativeGenerator.generate_narrative`
(`narrative_generator.py:190-204`): paragraphs in ascending number order,
each filled and normalized, joined by a double line break. -/
def generate_baseline (tpl : Template) (vals : List (String × PyValue)) :
    Except String String := do
  let paras ← (sortParagraphs tpl.paragraphs).mapM (fun p => generate_paragraph p vals)
  pure (String.intercalate "\n\n" paras)

/-- `NarrativeGenerator.generate_narrative` (`narrative_generator.py:190-216`)
with the resolver output `vals` given and the optional enhancer abstracted as
the outcome of its API call. -/
def generate_narrative (tpl : Template) (vals : List (String × PyValue))
    (enhancer : Option (Except String (Option String))) : Except String String := do
  let baseline ← generate_baseline tpl vals
  match enhancer with
  | none => pure baseline
  | some callResult => pure (enhance baseline callResult)

/-! ## Proof-support definitions -/

/-- Rule 2's replacement routed through `FieldMapper.format_field`'s date
formatter instead of the inline `_date_repl`: used to state that rule 2
rewrites ISO dates to exactly the form the Field Resolver produces. -/
def rule2ReplFF (span : List Char) : List Char :=
  ((format_field (some "date") (some (String.mk span))).getD (String.mk span)).data

/-- The rule 2 scanner with the replacement routed through `format_field`. -/
def rule2GoFF (prevWord : Bool) : List Char → List Char
  | [] => []
  | c :: rest =>
    if iso2MatchAt prevWord (c :: rest) then
      rule2ReplFF ((c :: rest).take 10) ++ rule2GoFF true (rest.drop 9)
    else c :: rule2GoFF (isWordChar c) rest
termination_by s => s.length
decreasing_by
  all_goals simp [List.length_drop]
  all_goals omega

/-- Rule 2 with every replacement produced by the Field Resolver's date
formatter. -/
def rule2FF (s : List Char) : List Char := rule2GoFF false s

/-- No word-bounded occurrence of `pat` anywhere in `s`, scanning with the
word-ness of the character preceding `s`. -/
def noWbMatch (ci : Bool) (pat : List Char) (pw : Bool) : List Char → Bool
  | [] => true
  | c :: rest => !wbMatchAt ci pat pw (c :: rest) && noWbMatch ci pat (isWordChar c) rest

/-- A template text assembled from literal segments and plain named
placeholders: `buildTemplate [(l₁,n₁),…] fin = l₁ ++ "{n₁}" ++ … ++ fin`.
Every escape-free template with well-formed placeholders is of this shape. -/
def buildTemplate : List (List Char × String) → List Char → List Char
  | [], fin => fin
  | (lit, name) :: rest, fin => lit ++ '{' :: (name.data ++ '}' :: buildTemplate rest fin)

/-- The chunks a `buildTemplate` text parses to. -/
def buildChunks : List (List Char × String) → List Char → List Chunk
  | [], fin => [Chunk.lit fin]
  | (lit, name) :: rest, fin => Chunk.lit lit :: Chunk.field name :: buildChunks rest fin

/-- A well-formed plain placeholder name: nonempty, no braces, not all
digits (an all-digit or empty name would go to positional lookup). -/
def goodName (name : String) : Prop :=
  name.data ≠ [] ∧ (¬ name.data.all Char.isDigit) ∧
  ∀ c ∈ name.data, c ≠ '{' ∧ c ≠ '}'

/-- No match of rule 2's pattern anywhere in the text, scanning with the
word-ness of the preceding character. -/
def noIsoMatch (pw : Bool) : List Char → Bool
  | [] => true
  | c :: rest => !iso2MatchAt pw (c :: rest) && noIsoMatch (isWordChar c) rest

/-- Character membership in a string, and string containment, for the
banned-token statements. -/
def containsTok (s tok : List Char) : Prop := tok <:+: s

/-- The text `fill_template` produces on a `buildTemplate` input: the
literal runs interleaved with each placeholder's rendered value. -/
def renderBuild (segs : List (List Char × String)) (fin : List Char)
    (vals : List (String × PyValue)) : List Char :=
  match segs with
  | [] => fin
  | (lit, name) :: rest => lit ++ (renderField vals name).data ++ renderBuild rest fin vals


/-! ### Proof-support definitions for the business-rule idempotence analysis -/

/-- Character comparison used by the pattern matchers: case-insensitive
(ASCII `toLower`) when `ci`, exact otherwise. -/
def chEq (ci : Bool) (a b : Char) : Bool :=
  if ci then a.toLower = b.toLower else a = b

/-- The prefix test of `wbMatchAt`, abstracted over the case flag. -/
def cipfx (ci : Bool) (pat s : List Char) : Bool :=
  if ci then ciPrefix pat s else pat.isPrefixOf s

/-- Head overlap compatibility: can `q` be a `cipfx`-prefix of `r ++ X` for
some `X`?  Conservative decidable test used to rule straddles out. -/
def headCompat (ci : Bool) (q r : List Char) : Bool :=
  if q.length ≤ r.length then cipfx ci q r else cipfx ci (q.take r.length) r

/-- The tail of a word-bounded match: the last `pat.length - m` pattern
characters and the right word boundary, tested at the head of `x`. -/
def wbTailAt (ci : Bool) (pat : List Char) (m : Nat) (x : List Char) : Bool :=
  cipfx ci (pat.drop m) x &&
  (match x.drop (pat.length - m) with
   | [] => isWordChar (x.getD (pat.length - m - 1) ' ')
   | c :: _ => isWordChar (x.getD (pat.length - m - 1) ' ') != isWordChar c)

/-- The right word boundary test after matching up to `c`, with `x` the
remaining text. -/
def bndOk (c : Char) (x : List Char) : Bool :=
  match x with
  | [] => isWordChar c
  | d :: _ => isWordChar c != isWordChar d

/-- Guaranteed failure of a word-bounded match at the head of `f ++ X`, for
every continuation `X`, judged from `f` alone. -/
def grdFail (ci : Bool) (pat : List Char) (pw : Bool) (f : List Char) : Bool :=
  if pat.length < f.length then !wbMatchAt ci pat pw f
  else !(cipfx ci (pat.take f.length) f &&
         (match f with
          | [] => false
          | c :: _ => pw != isWordChar c))

/-- No word-bounded match can start at any position inside `f`, whatever
follows `f`. -/
def noMatchThrough (ci : Bool) (pat : List Char) (pw : Bool) : List Char → Bool
  | [] => true
  | c :: rest => grdFail ci pat pw (c :: rest) && noMatchThrough ci pat (isWordChar c) rest

/-- The word-ness of the character immediately preceding the continuation:
that of the last character of `l`, or the incoming `pw` when `l` is empty. -/
def endW (pw : Bool) (l : List Char) : Bool :=
  match l.getLast? with
  | none => pw
  | some c => isWordChar c

/-- Refined straddle test: can the pattern tail `q` (with its right word
boundary) fit at the head of `r ++ X` for some continuation `X`?  When the
tail and its boundary both land inside `r` the test is exact; at the edge it
conservatively ignores the boundary. -/
def tailCompat (ci : Bool) (q r : List Char) : Bool :=
  if q.length < r.length then
    cipfx ci q r &&
      (isWordChar (r.getD (q.length - 1) ' ') != isWordChar (r.getD q.length ' '))
  else if q.length = r.length then cipfx ci q r
  else cipfx ci (q.take r.length) r

/-- Character-wise agreement up to ASCII lower-casing. -/
def lowEq : List Char → List Char → Bool
  | [], [] => true
  | a :: as, b :: bs => (a.toLower = b.toLower) && lowEq as bs
  | _, _ => false

/-- No match of rule 5's pattern at any position. -/
def noR5 : List Char → Bool
  | [] => true
  | c :: rest =>
    !(c.isDigit && ciPrefix "-years-old".data (rest.dropWhile Char.isDigit)) && noR5 rest

/-- No match of rule 7's pattern at any position. -/
def noR7 : List Char → Bool
  | [] => true
  | c :: rest =>
    !("SAE of ".data.isPrefixOf (c :: rest) &&
      ((((c :: rest).drop 7).head?.map isUpperAZ).getD false)) && noR7 rest

/-- The tail of a rule 7 match: remaining pattern characters and the
trailing uppercase-letter test. -/
def tailAt7 (m : Nat) (x : List Char) : Bool :=
  ("SAE of ".data.drop m).isPrefixOf x &&
    (((x.drop (7 - m)).head?.map isUpperAZ).getD false)

end PatientNarrative

deriving instance DecidableEq for Except

namespace PatientNarrative

set_option maxRecDepth 10000

unseal parseChunks wbGo rule2Go rule2GoFF lamGo r5Go r7Go List.mergeSort

/-! ## Shared lemmas -/

theorem alookup_cons {α : Type} (n k : String) (v : α) (vals : List (String × α)) :
    alookup ((n, v) :: vals) k = if n = k then some v else alookup vals k := by
  by_cases h : n = k <;> simp [alookup, List.find?_cons, h]

theorem renderChunks_congr (vals vals' : List (String × PyValue))
    (h : ∀ n, renderField vals n = renderField vals' n) (cs : List Chunk) :
    renderChunks vals cs = renderChunks vals' cs := by
  induction cs with
  | nil => rfl
  | cons c rest ih =>
    cases c with
    | lit l => simp [renderChunks, ih]
    | field name => simp [renderChunks, h name, ih]

theorem fill_template_congr (vals vals' : List (String × PyValue))
    (h : ∀ n, renderField vals n = renderField vals' n) (t : String) :
    fill_template t vals = fill_template t vals' := by
  unfold fill_template
  cases parseChunks t.data with
  | error e => rfl
  | ok cs => exact renderChunks_congr vals vals' h cs

theorem takeWhile_append_close (l t : List Char) (h : ∀ x ∈ l, x ≠ '}') :
    (l ++ '}' :: t).takeWhile (fun c => decide (c ≠ '}')) = l := by
  induction l with
  | nil => simp [List.takeWhile]
  | cons a as ih =>
    have ha := h a (by simp)
    have ih2 := ih (fun x hx => h x (by simp [hx]))
    simp [List.takeWhile, ha]
    simpa using ih2

theorem parse_field (name t : List Char) (h : ∀ c ∈ name, c ≠ '{' ∧ c ≠ '}') :
    parseChunks ('{' :: (name ++ '}' :: t)) =
      (parseChunks t).map (fun cs => Chunk.field (String.mk name) :: cs) := by
  cases name with
  | nil =>
    simp [parseChunks, List.takeWhile]
    cases parseChunks t <;> simp [Except.map]
  | cons c cs =>
    have hc := h c (by simp)
    have htw : ((c :: cs) ++ '}' :: t).takeWhile (fun x => decide (x ≠ '}')) = c :: cs :=
      takeWhile_append_close _ t (fun x hx => (h x hx).2)
    rw [parseChunks]
    · simp only [htw]
      rw [List.drop_left]
      simp
      cases parseChunks t <;> simp [Except.map]
    · intro r hr
      injection hr with h1 h2
      exact hc.1 h1

theorem parse_lit (c : Char) (t : List Char) (hc1 : c ≠ '{') (hc2 : c ≠ '}') :
    parseChunks (c :: t) = (parseChunks t).map (fun cs => Chunk.lit [c] :: cs) := by
  rw [parseChunks]
  · cases parseChunks t <;> simp [Except.map]
  all_goals intro a
  all_goals first
    | exact absurd a hc1
    | exact absurd a hc2
    | (intro b; first | exact absurd a hc1 | exact absurd a hc2
                      | exact absurd b hc1 | exact absurd b hc2)

/-! ## C1 — a placeholder with no field binding -/

/-- C1 counterexample: `fill_template` does NOT raise on a placeholder with
no corresponding field entry; it silently substitutes the sentinel marker
(the `_SafeDict.__missing__` path), so the claimed hard error never
happens. -/
theorem c1_counterexample_missing_name_no_error :
    fill_template "{x}" [] = Except.ok "[NOT AVAILABLE]" := by decide

/-- C1 (amended): a placeholder name with no entry in the field mapping is
silently rendered as the `[NOT AVAILABLE]` marker — exactly as if the
mapping carried that name bound to the literal marker string; no error is
raised on its account.  (The source's `except KeyError` branch is
unreachable for named placeholders because `_SafeDict.__missing__`
supplies the marker instead of raising.) -/
theorem c1_missing_name_renders_marker (t : String) (vals : List (String × PyValue))
    (n : String) (hmiss : alookup vals n = none) :
    fill_template t vals = fill_template t ((n, PyValue.str "[NOT AVAILABLE]") :: vals) := by
  refine fill_template_congr _ _ (fun k => ?_) t
  unfold renderField
  rw [alookup_cons]
  by_cases hk : n = k
  · subst hk
    simp [hmiss, isMissingSentinel, pyStr]
  · simp [hk]

theorem c1_missing_name_renders_marker_witness :
    fill_template "Patient {pt} recovered" [] =
      fill_template "Patient {pt} recovered" [("pt", PyValue.str "[NOT AVAILABLE]")] :=
  c1_missing_name_renders_marker "Patient {pt} recovered" [] "pt" rfl

/-! ## C2 — the template priority cascade -/

/-- C2: with all template keys configured, `select_template` follows the
fixed priority cascade over the case-insensitively normalized tri-state
flags: serious=Y ∧ hosp=Y → hospitalization template; serious=Y ∧ hosp=N ∧
medically-important=Y → medically-important template; serious=Y ∧ hosp≠Y
(unknown included) → medically-important template as fallback; serious not
Y (N, unknown or missing alike) → non-serious template. -/
theorem c2_select_template_cascade (ev : EventData) (cfg : TemplateConfig)
    (th tm tg tn : Template)
    (hh : alookup cfg "sae_hospitalization" = some th)
    (hm : alookup cfg "sae_medically_important" = some tm)
    (hg : alookup cfg "sae_generic" = some tg)
    (hn : alookup cfg "ae_non_serious" = some tn) :
    (normFlag ev.serious_event = "Y" ∧ normFlag ev.hospitalization = "Y" →
        select_template ev cfg = .ok th) ∧
    (normFlag ev.serious_event = "Y" ∧ normFlag ev.hospitalization = "N" ∧
        normFlag ev.other_medically_important = "Y" →
        select_template ev cfg = .ok tm) ∧
    (normFlag ev.serious_event = "Y" ∧ normFlag ev.hospitalization ≠ "Y" →
        select_template ev cfg = .ok tm) ∧
    (normFlag ev.serious_event ≠ "Y" → select_template ev cfg = .ok tn) := by
  refine ⟨fun h => ?_, fun h => ?_, fun h => ?_, fun h => ?_⟩
  · simp [select_template, h.1, h.2, hh]
  · have hne : normFlag ev.hospitalization ≠ "Y" := by rw [h.2.1]; decide
    simp [select_template, h.1, h.2.1, h.2.2, hne, hh, hm]
  · by_cases hN : normFlag ev.hospitalization = "N" <;>
      by_cases hMI : normFlag ev.other_medically_important = "Y" <;>
      simp [select_template, h.1, h.2, hN, hMI, hh, hm]
  · by_cases hY : normFlag ev.hospitalization = "Y" <;>
      by_cases hN : normFlag ev.hospitalization = "N" <;>
      by_cases hMI : normFlag ev.other_medically_important = "Y" <;>
      simp [select_template, h, hY, hN, hMI, hn]

theorem c2_select_template_cascade_witness :
    select_template ⟨some "y", some "n", some "Y"⟩
      [("sae_hospitalization", ⟨"SAE_HOSP_V1", []⟩),
       ("sae_medically_important", ⟨"SAE_MED_IMP_V1", []⟩),
       ("sae_generic", ⟨"SAE_GENERIC_V1", []⟩),
       ("ae_non_serious", ⟨"AE_NON_SERIOUS_V1", []⟩)] =
      .ok ⟨"SAE_MED_IMP_V1", []⟩ :=
  (c2_select_template_cascade ⟨some "y", some "n", some "Y"⟩
      [("sae_hospitalization", ⟨"SAE_HOSP_V1", []⟩),
       ("sae_medically_important", ⟨"SAE_MED_IMP_V1", []⟩),
       ("sae_generic", ⟨"SAE_GENERIC_V1", []⟩),
       ("ae_non_serious", ⟨"AE_NON_SERIOUS_V1", []⟩)]
      ⟨"SAE_HOSP_V1", []⟩ ⟨"SAE_MED_IMP_V1", []⟩ ⟨"SAE_GENERIC_V1", []⟩
      ⟨"AE_NON_SERIOUS_V1", []⟩ (by decide) (by decide) (by decide)
      (by decide)).2.1 ⟨by decide, by decide, by decide⟩

/-! ## C3 — the end-of-cascade configuration error -/

/-- C3 counterexample: an event with serious=Y whose configuration contains
none of the SAE template entries but does contain `ae_non_serious` makes
`select_template` return the non-serious template — not the configuration
error the claim demands. -/
theorem c3_counterexample_serious_gets_non_serious :
    select_template ⟨some "Y", some "Y", some "N"⟩
      [("ae_non_serious", ⟨"AE_NON_SERIOUS_V1", []⟩)] =
      .ok ⟨"AE_NON_SERIOUS_V1", []⟩ := by decide

/-- C3 (amended): `select_template` fails — with the configuration error
naming the normalized flags and the available template keys — exactly when
the whole cascade is exhausted: `ae_non_serious` is absent AND, when
serious=Y, the SAE entries tried for those flags (`sae_generic` and
`sae_hospitalization` always; `sae_medically_important` when hosp≠Y) are
also absent.  In particular an SAE with only `ae_non_serious` configured
falls through to the non-serious template instead of failing, and every
error carries that message. -/
theorem c3_error_characterization (ev : EventData) (cfg : TemplateConfig) :
    ((select_template ev cfg =
        .error (noTemplateMsg (normFlag ev.serious_event) (normFlag ev.hospitalization)
                 (normFlag ev.other_medically_important) (cfg.map (·.1)))) ↔
      (alookup cfg "ae_non_serious" = none ∧
       (normFlag ev.serious_event = "Y" →
         alookup cfg "sae_generic" = none ∧
         alookup cfg "sae_hospitalization" = none ∧
         (normFlag ev.hospitalization ≠ "Y" →
           alookup cfg "sae_medically_important" = none)))) ∧
    (∀ msg, select_template ev cfg = .error msg →
      msg = noTemplateMsg (normFlag ev.serious_event) (normFlag ev.hospitalization)
              (normFlag ev.other_medically_important) (cfg.map (·.1))) := by
  rcases hh : alookup cfg "sae_hospitalization" with _ | th <;>
  rcases hm : alookup cfg "sae_medically_important" with _ | tm <;>
  rcases hg : alookup cfg "sae_generic" with _ | tg <;>
  rcases hn : alookup cfg "ae_non_serious" with _ | tn <;>
  by_cases hs : normFlag ev.serious_event = "Y" <;>
  by_cases hY : normFlag ev.hospitalization = "Y" <;>
  by_cases hN : normFlag ev.hospitalization = "N" <;>
  by_cases hMI : normFlag ev.other_medically_important = "Y" <;>
  simp [select_template, hs, hY, hN, hMI, hh, hm, hg, hn]

theorem c3_error_characterization_witness :
    select_template ⟨some "Y", none, none⟩ [] =
      .error (noTemplateMsg "Y" "" "" []) :=
  ((c3_error_characterization ⟨some "Y", none, none⟩ []).1).mpr
    ⟨rfl, fun _ => ⟨rfl, rfl, fun _ => rfl⟩⟩

/-! ## C4 — enhancement failure falls back to the baseline -/

/-- C4: when the enhancement collaborator's call raises (any exception),
narrative generation does not fail: it returns exactly the deterministic
baseline text, identical to what an un-enhanced run returns; the failure is
never surfaced. -/
theorem c4_enhancer_exception_returns_baseline (tpl : Template)
    (vals : List (String × PyValue)) (e : String) (b : String)
    (hb : generate_baseline tpl vals = .ok b) :
    generate_narrative tpl vals (some (.error e)) = .ok b ∧
    generate_narrative tpl vals none = .ok b := by
  constructor <;> simp [generate_narrative, hb, enhance]

theorem c4_enhancer_exception_returns_baseline_witness :
    generate_narrative ⟨"T1", [⟨1, "Patient {pt} recovered", none⟩]⟩
      [("pt", PyValue.str "Ann")] (some (.error "APITimeoutError")) =
      .ok "Patient Ann recovered" :=
  (c4_enhancer_exception_returns_baseline ⟨"T1", [⟨1, "Patient {pt} recovered", none⟩]⟩
      [("pt", PyValue.str "Ann")] "APITimeoutError" "Patient Ann recovered"
      (by decide)).1

/-! ## C8 — sentinel values render as the visible marker -/

/-- C8: a field entry whose value is Python `None`, the empty string, or
the literal strings `"nan"`/`"NaN"` is substituted as the visible
`[NOT AVAILABLE]` marker: filling behaves exactly as if the entry held the
literal marker string — the placeholder is neither left blank nor an
error — and a template consisting of that placeholder renders to exactly
the marker. -/
theorem c8_sentinel_value_renders_marker (vals : List (String × PyValue))
    (k : String) (v : PyValue) (hk : alookup vals k = some v)
    (hv : isMissingSentinel v = true) :
    (∀ t, fill_template t vals =
            fill_template t ((k, PyValue.str "[NOT AVAILABLE]") :: vals)) ∧
    (goodName k → fill_template ("\x7b" ++ k ++ "\x7d") vals = .ok "[NOT AVAILABLE]") := by
  constructor
  · intro t
    refine fill_template_congr _ _ (fun n => ?_) t
    unfold renderField
    rw [alookup_cons]
    by_cases hn : k = n
    · subst hn
      rw [hk]
      simp [hv]
      decide
    · simp [hn]
  · intro hgood
    obtain ⟨hne, hdig, hbr⟩ := hgood
    have hdata : ("\x7b" ++ k ++ "\x7d").data = '{' :: (k.data ++ '}' :: []) := by
      simp [String.data_append]
    unfold fill_template
    rw [hdata, parse_field k.data [] hbr]
    have hmk : String.mk k.data = k := rfl
    simp only [parseChunks, Except.map, hmk]
    show renderChunks vals [Chunk.field k] = Except.ok "[NOT AVAILABLE]"
    rw [renderChunks.eq_def]
    simp [hne, hdig, renderChunks, renderField, hk, hv]

theorem c8_sentinel_value_renders_marker_witness :
    fill_template "{dose}" [("dose", PyValue.str "nan")] = .ok "[NOT AVAILABLE]" :=
  (c8_sentinel_value_renders_marker [("dose", PyValue.str "nan")] "dose"
      (PyValue.str "nan") (by decide) (by decide)).2 ⟨by decide, by decide, by decide⟩

/-! ## C9 — value-map lookup order and falsy entries -/

/-- C9 counterexample: with `value_map = {"A": "", "a": "x"}` and raw value
`"a"`, the entry under the uppercased key is falsy (the empty string), yet
the raw value is NOT returned unchanged: the raw-key lookup wins and
returns `"x"`. -/
theorem c9_counterexample_falsy_upper_uses_raw_key :
    apply_value_mapping (some [("A", ""), ("a", "x")]) (some "a") = some "x" ∧
    (some "x" : Option String) ≠ some "a" := ⟨by decide, by decide⟩

/-- C9 (amended): `apply_value_mapping` looks up the uppercased string form
first and the raw value second; a truthy uppercased entry wins; a falsy
(empty) or missing uppercased entry defers to the raw-key lookup, whose
value is returned even when empty; the raw value is returned unchanged
exactly when neither lookup produces a value.  Consequently a value_map can
rewrite a value to the empty string only through its raw key (or when the
value already is empty), never through the case-normalized key alone. -/
theorem c9_value_mapping_lookup_order (vm : List (String × String)) (v : String)
    (hvm : vm ≠ []) :
    (∀ m, alookup vm (pyUpper v) = some m → m ≠ "" →
        apply_value_mapping (some vm) (some v) = some m) ∧
    (∀ m, (alookup vm (pyUpper v) = none ∨ alookup vm (pyUpper v) = some "") →
        alookup vm v = some m → apply_value_mapping (some vm) (some v) = some m) ∧
    ((alookup vm (pyUpper v) = none ∨ alookup vm (pyUpper v) = some "") →
        alookup vm v = none → apply_value_mapping (some vm) (some v) = some v) ∧
    (∀ r, apply_value_mapping (some vm) (some v) = some r → r = "" →
        v = "" ∨ alookup vm v = some "") := by
  unfold apply_value_mapping pyOrOpt
  simp only [hvm]
  refine ⟨fun m hu hm => ?_, fun m hu hr => ?_, fun hu hr => ?_, fun r hr hempty => ?_⟩
  · simp [hu, hm]
  · rcases hu with hu | hu <;> simp [hu, hr]
  · rcases hu with hu | hu <;> simp [hu, hr]
  · subst hempty
    rcases hu : alookup vm (pyUpper v) with _ | m <;> rw [hu] at hr
    · rcases hv : alookup vm v with _ | m2 <;> rw [hv] at hr <;> simp_all
    · by_cases hm : m = ""
      · rw [hm] at hr
        simp at hr
        rcases hv : alookup vm v with _ | m2 <;> rw [hv] at hr <;> simp_all
      · simp [hm] at hr

theorem c9_value_mapping_lookup_order_witness :
    apply_value_mapping (some [("MALE", "male")]) (some "Male") = some "male" :=
  (c9_value_mapping_lookup_order [("MALE", "male")] "Male" (by decide)).1
    "male" (by decide) (by decide)

/-! ## C10 — end-date variation selection -/

/-- C10 counterexample: with a declared `with_end_date` variation whose text
is the empty string and a truthy resolved `end_date`, the chosen variation
text is NOT appended after the base text with a separating space (which
would yield `"Base "`): the falsy variation text is discarded and the base
text is used alone. -/
theorem c10_counterexample_empty_variation_text :
    generate_paragraph ⟨1, "Base", some [("with_end_date", "")]⟩
        [("end_date", PyValue.str "25-Jan-2024")] = .ok "Base" ∧
    ("Base" : String) ≠ "Base " := ⟨by decide, by decide⟩

/-- C10 (amended): with declared (nonempty) variations, the `with_end_date`
variation is chosen exactly when the resolved `end_date` value is truthy
(`None`/empty select `without_end_date`); a chosen variation text that is
present and nonempty is appended after the base template text separated by
a single space (never replacing it); a chosen variation key that is absent
— or present with empty text — leaves the base text alone. -/
theorem c10_variation_selection (cfg : Paragraph) (vals : List (String × PyValue))
    (vs : List (String × String)) (hv : cfg.variations = some vs) (hne : vs ≠ []) :
    (pyTruthy ((alookup vals "end_date").getD PyValue.none) = true →
      (∀ vt, alookup vs "with_end_date" = some vt → vt ≠ "" →
        generate_paragraph cfg vals =
          (fill_template (cfg.template ++ " " ++ vt) vals).map apply_business_rules) ∧
      ((alookup vs "with_end_date" = none ∨ alookup vs "with_end_date" = some "") →
        generate_paragraph cfg vals =
          (fill_template cfg.template vals).map apply_business_rules)) ∧
    (pyTruthy ((alookup vals "end_date").getD PyValue.none) = false →
      (∀ vt, alookup vs "without_end_date" = some vt → vt ≠ "" →
        generate_paragraph cfg vals =
          (fill_template (cfg.template ++ " " ++ vt) vals).map apply_business_rules) ∧
      ((alookup vs "without_end_date" = none ∨ alookup vs "without_end_date" = some "") →
        generate_paragraph cfg vals =
          (fill_template cfg.template vals).map apply_business_rules)) := by
  unfold generate_paragraph
  rw [hv]
  constructor
  · intro ht
    refine ⟨fun vt hvt hvtne => ?_, fun hcase => ?_⟩
    · simp [hne, ht, hvt, hvtne]
    · rcases hcase with hc | hc <;> simp [hne, ht, hc]
  · intro ht
    refine ⟨fun vt hvt hvtne => ?_, fun hcase => ?_⟩
    · simp [hne, ht, hvt, hvtne]
    · rcases hcase with hc | hc <;> simp [hne, ht, hc]

theorem c10_variation_selection_witness :
    generate_paragraph ⟨2, "The event resolved", some [("with_end_date", "on {end_date}.")]⟩
        [("end_date", PyValue.str "25-Jan-2024")] =
      (fill_template ("The event resolved" ++ " " ++ "on {end_date}.")
        [("end_date", PyValue.str "25-Jan-2024")]).map apply_business_rules :=
  (((c10_variation_selection
      ⟨2, "The event resolved", some [("with_end_date", "on {end_date}.")]⟩
      [("end_date", PyValue.str "25-Jan-2024")]
      [("with_end_date", "on {end_date}.")] rfl (by decide)).1
    (by decide)).1 "on {end_date}." (by decide) (by decide))

/-! ### Template shape: parsing and rendering a plain-placeholder template, and C7 -/

theorem infix_append_cases {tok a b : List Char} (h : tok <:+: a ++ b) :
    tok <:+: a ∨ tok <:+: b ∨
      ∃ k, 0 < k ∧ k < tok.length ∧ tok.take k <:+ a ∧ tok.drop k <+: b := by
  obtain ⟨s, t, hst⟩ := h
  by_cases hA : s.length + tok.length ≤ a.length
  · left
    have ha : a = (s ++ (tok ++ t)).take a.length := by
      rw [show s ++ (tok ++ t) = a ++ b by simpa using hst, List.take_left]
    rw [List.take_append_eq_append_take, List.take_append_eq_append_take] at ha
    rw [List.take_of_length_le (by omega), List.take_of_length_le (by omega)] at ha
    exact ⟨s, t.take (a.length - s.length - tok.length), by
      rw [ha]; simp [List.append_assoc]⟩
  · by_cases hB : a.length ≤ s.length
    · right; left
      have hb : b = (s ++ (tok ++ t)).drop a.length := by
        rw [show s ++ (tok ++ t) = a ++ b by simpa using hst, List.drop_left]
      rw [List.drop_append_eq_append_drop] at hb
      rw [show a.length - s.length = 0 by omega, List.drop_zero] at hb
      exact ⟨s.drop a.length, t, by rw [hb]; simp [List.append_assoc]⟩
    · right; right
      refine ⟨a.length - s.length, by omega, by omega, ?_, ?_⟩
      · have ha : a = (s ++ (tok ++ t)).take a.length := by
          rw [show s ++ (tok ++ t) = a ++ b by simpa using hst, List.take_left]
        rw [List.take_append_eq_append_take, List.take_append_eq_append_take] at ha
        rw [List.take_of_length_le (by omega)] at ha
        rw [show a.length - s.length - tok.length = 0 by omega, List.take_zero] at ha
        exact ⟨s, by rw [ha]; simp⟩
      · have hb : b = (s ++ (tok ++ t)).drop a.length := by
          rw [show s ++ (tok ++ t) = a ++ b by simpa using hst, List.drop_left]
        rw [List.drop_append_eq_append_drop, List.drop_append_eq_append_drop] at hb
        rw [List.drop_of_length_le (by omega)] at hb
        rw [show a.length - s.length - tok.length = 0 by omega, List.drop_zero] at hb
        exact ⟨t, by rw [hb]; simp⟩

theorem suffix_last_mem {l m : List Char} (h : l <:+ m) (hne : l ≠ []) {c : Char}
    (hm : m.getLast? = some c) : c ∈ l := by
  obtain ⟨u, rfl⟩ := h
  rw [List.getLast?_append_of_ne_nil u hne] at hm
  have : l.getLast hne = c := by
    have := List.getLast?_eq_getLast l hne
    rw [this] at hm; injection hm
  rw [← this]; exact List.getLast_mem hne

theorem prefix_head_mem {l m : List Char} (h : l <+: m) (hne : l ≠ []) {c : Char}
    (hm : m.head? = some c) : c ∈ l := by
  obtain ⟨u, rfl⟩ := h
  cases l with
  | nil => exact absurd rfl hne
  | cons x xs => simp at hm; simp [hm]

theorem alookup_mem {α : Type} (m : List (String × α)) (k : String) (v : α)
    (h : alookup m k = some v) : (k, v) ∈ m := by
  unfold alookup at h
  cases hf : m.find? (fun p => p.1 = k) with
  | none => rw [hf] at h; simp at h
  | some p =>
    rw [hf] at h
    simp at h
    have := List.mem_of_find?_eq_some hf
    have hk : p.1 = k := by
      have := List.find?_some hf
      simpa using this
    obtain ⟨p1, p2⟩ := p
    simp at hk h
    subst hk; subst h
    exact this

theorem mk_append (a b : List Char) : String.mk (a ++ b) = String.mk a ++ String.mk b := rfl

theorem mk_append_empty (l : List Char) : String.mk l ++ "" = String.mk l := by
  show String.mk (l ++ []) = String.mk l
  rw [List.append_nil]

theorem parse_lit_run (l t : List Char) (h : ∀ c ∈ l, c ≠ '{' ∧ c ≠ '}') :
    parseChunks (l ++ t) =
      (parseChunks t).map (fun cs => l.map (fun c => Chunk.lit [c]) ++ cs) := by
  induction l with
  | nil => cases hp : parseChunks t <;> simp [Except.map, hp]
  | cons c cs ih =>
    have hc := h c (by simp)
    rw [List.cons_append, parse_lit c (cs ++ t) hc.1 hc.2,
        ih (fun x hx => h x (by simp [hx]))]
    cases parseChunks t <;> simp [Except.map]

theorem render_lit_run (vals : List (String × PyValue)) (l : List Char) (cs : List Chunk) :
    renderChunks vals (l.map (fun c => Chunk.lit [c]) ++ cs) =
      (renderChunks vals cs).map (fun s => String.mk l ++ s) := by
  induction l with
  | nil =>
    cases hr : renderChunks vals cs with
    | error e => simp [Except.map, hr]
    | ok s => simp [Except.map, hr]
  | cons c l2 ih =>
    simp only [List.map_cons, List.cons_append]
    rw [renderChunks.eq_def]
    simp only []
    rw [ih]
    cases renderChunks vals cs with
    | error e => simp [Except.map, Except.bind]
    | ok s =>
      simp [Except.map, Except.bind]
      rw [show String.mk (c :: l2) = String.mk [c] ++ String.mk l2 from rfl]
      simp [String.append_assoc]

theorem build_fill (segs : List (List Char × String)) (fin : List Char)
    (vals : List (String × PyValue))
    (hlit : ∀ p ∈ segs, ∀ c ∈ p.1, c ≠ '{' ∧ c ≠ '}')
    (hname : ∀ p ∈ segs, goodName p.2)
    (hfin : ∀ c ∈ fin, c ≠ '{' ∧ c ≠ '}') :
    fill_template (String.mk (buildTemplate segs fin)) vals =
      Except.ok (String.mk (renderBuild segs fin vals)) := by
  induction segs with
  | nil =>
    show parseChunks (buildTemplate [] fin) >>= renderChunks vals = _
    rw [buildTemplate]
    have hp := parse_lit_run fin [] hfin
    rw [List.append_nil] at hp
    rw [hp]
    simp only [parseChunks, Except.map, List.append_nil]
    have hr := render_lit_run vals fin []
    rw [List.append_nil] at hr
    show renderChunks vals (fin.map (fun c => Chunk.lit [c])) = _
    rw [hr]
    simp only [renderChunks, Except.map]
    rw [mk_append_empty]
    rfl
  | cons p rest ih =>
    obtain ⟨lit, name⟩ := p
    obtain ⟨hg1, hg2, hg3⟩ := hname (lit, name) (by simp)
    replace hg1 : name.data ≠ [] := hg1
    replace hg2 : ¬ name.data.all Char.isDigit = true := hg2
    replace hg3 : ∀ c ∈ name.data, c ≠ '{' ∧ c ≠ '}' := hg3
    replace ih : parseChunks (buildTemplate rest fin) >>= renderChunks vals =
        Except.ok (String.mk (renderBuild rest fin vals)) :=
      ih (fun p hp => hlit p (by simp [hp])) (fun p hp => hname p (by simp [hp]))
    show parseChunks (buildTemplate ((lit, name) :: rest) fin) >>= renderChunks vals = _
    rw [buildTemplate]
    rw [parse_lit_run lit _ (hlit (lit, name) (by simp))]
    rw [parse_field name.data _ hg3]
    cases hq : parseChunks (buildTemplate rest fin) with
    | error e =>
      rw [hq] at ih
      replace ih : (Except.error e : Except String String) =
          Except.ok (String.mk (renderBuild rest fin vals)) := ih
      exact Except.noConfusion ih
    | ok chunks =>
      rw [hq] at ih
      replace ih : renderChunks vals chunks = Except.ok (String.mk (renderBuild rest fin vals)) := ih
      simp only [Except.map]
      show renderChunks vals
        (lit.map (fun c => Chunk.lit [c]) ++ (Chunk.field (String.mk name.data) :: chunks)) = _
      rw [render_lit_run]
      have hcond : (decide (name.data = []) || name.data.all Char.isDigit) = false := by
        rw [Bool.or_eq_false_iff]
        exact ⟨by simpa using hg1, by simpa using hg2⟩
      simp only [renderChunks, hcond, Bool.false_eq_true, if_false, ih]
      simp only [Except.map, Except.bind, renderBuild]
      show Except.ok (String.mk lit ++ (renderField vals (String.mk name.data) ++
        String.mk (renderBuild rest fin vals))) = _
      rw [show renderField vals (String.mk name.data) =
        String.mk ((renderField vals name).data) from rfl]
      rw [← mk_append, ← mk_append]
      simp [List.append_assoc]

theorem renderField_no_brace (vals : List (String × PyValue)) (k : String) (c : Char)
    (hc : c = '{' ∨ c = '}')
    (hv : ∀ p ∈ vals, c ∉ (pyStr p.2).data) :
    c ∉ (renderField vals k).data := by
  unfold renderField
  cases hl : alookup vals k with
  | none => rcases hc with rfl | rfl <;> decide
  | some v =>
    by_cases hs : isMissingSentinel v
    · simp only [hs, if_true]
      rcases hc with rfl | rfl <;> decide
    · simp only [hs, Bool.false_eq_true, if_false]
      exact hv (k, v) (alookup_mem vals k v hl)

theorem renderBuild_no_brace (segs : List (List Char × String)) (fin : List Char)
    (vals : List (String × PyValue)) (c : Char) (hc : c = '{' ∨ c = '}')
    (hlit : ∀ p ∈ segs, c ∉ p.1) (hfin : c ∉ fin)
    (hv : ∀ p ∈ vals, c ∉ (pyStr p.2).data) :
    c ∉ renderBuild segs fin vals := by
  induction segs with
  | nil => simpa [renderBuild] using hfin
  | cons p rest ih =>
    obtain ⟨lit, name⟩ := p
    simp only [renderBuild, List.mem_append, not_or]
    refine ⟨⟨fun h => hlit (lit, name) (by simp) h, ?_⟩, ?_⟩
    · exact renderField_no_brace vals name c hc hv
    · exact ih (fun p hp => hlit p (by simp [hp]))

theorem renderField_sentinel (vals : List (String × PyValue)) (k : String)
    (hv : ∀ p ∈ vals, isMissingSentinel p.2 = true) :
    renderField vals k = "[NOT AVAILABLE]" := by
  unfold renderField
  cases hl : alookup vals k with
  | none => rfl
  | some v => simp [hv (k, v) (alookup_mem vals k v hl)]

theorem renderBuild_no_token (tok : List Char)
    (htokl : '[' ∉ tok) (htokr : ']' ∉ tok)
    (htokm : ¬ tok <:+: "[NOT AVAILABLE]".data)
    (segs : List (List Char × String)) (fin : List Char)
    (vals : List (String × PyValue))
    (hv : ∀ p ∈ vals, isMissingSentinel p.2 = true)
    (hlit : ∀ p ∈ segs, ¬ tok <:+: p.1) (hfin : ¬ tok <:+: fin) :
    ¬ tok <:+: renderBuild segs fin vals := by
  induction segs with
  | nil => simpa [renderBuild] using hfin
  | cons p rest ih =>
    obtain ⟨lit, name⟩ := p
    rw [renderBuild, renderField_sentinel vals name hv, List.append_assoc]
    intro hinf
    rcases infix_append_cases hinf with h | h | ⟨k, hk0, hkl, hks, hkp⟩
    · exact hlit (lit, name) (by simp) h
    · rcases infix_append_cases h with h2 | h2 | ⟨k, hk0, hkl, hks, hkp⟩
      · exact htokm h2
      · exact ih (fun p hp => hlit p (by simp [hp])) h2
      · have hne : tok.take k ≠ [] :=
          List.ne_nil_of_length_pos (by rw [List.length_take]; omega)
        have hmem : ']' ∈ tok.take k := suffix_last_mem hks hne (by decide)
        exact htokr (List.take_subset k tok hmem)
    · have hne : tok.drop k ≠ [] :=
        List.ne_nil_of_length_pos (by rw [List.length_drop]; omega)
      have hhd : ("[NOT AVAILABLE]".data ++ renderBuild rest fin vals).head? = some '[' := by
        rw [List.head?_append_of_ne_nil ("[NOT AVAILABLE]".data) (by decide)]
        decide
      have hmem : '[' ∈ tok.drop k := prefix_head_mem hkp hne hhd
      exact htokl (List.drop_subset k tok hmem)

/-- C7 counterexample: the generated text CAN contain the literal strings
`"None"` and `"nan"`: the Python string value `"None"` is not caught by the
sentinel test `value in (None, "", "nan", "NaN")` and is interpolated
verbatim, and a float NaN fails that membership test too (NaN ≠ NaN), so it
is interpolated as `str(nan) = "nan"`. -/
theorem c7_counterexample_none_nan_leak :
    fill_template "{x}" [("x", PyValue.str "None")] = Except.ok "None" ∧
    fill_template "{x}" [("x", PyValue.nanV)] = Except.ok "nan" := by
  constructor <;> decide

/-- C7 (amended): for a well-formed template (escape-free literal runs with
no stray braces, plain non-numeric placeholder names), `fill_template`
succeeds and produces exactly the literal runs interleaved with each
placeholder's rendered value; the output then (i) never contains a brace —
hence no unresolved `\x7bplaceholder\x7d` token can survive — as long as no
interpolated value string carries a brace itself, and (ii) never contains
the literal tokens `"None"` or `"nan"` when every bound value is one of the
missing sentinels (`None`, `""`, `"nan"`, `"NaN"`, which all render as the
`[NOT AVAILABLE]` marker) and the template's own literal text is free of
those tokens.  (The counterexample shows the unconditional claim is false:
the string value `"None"` and a float NaN leak through verbatim.) -/
theorem c7_no_braces_or_tokens_under_sentinels
    (segs : List (List Char × String)) (fin : List Char)
    (vals : List (String × PyValue))
    (hlit : ∀ p ∈ segs, ∀ c ∈ p.1, c ≠ '{' ∧ c ≠ '}')
    (hname : ∀ p ∈ segs, goodName p.2)
    (hfin : ∀ c ∈ fin, c ≠ '{' ∧ c ≠ '}') :
    fill_template (String.mk (buildTemplate segs fin)) vals =
      Except.ok (String.mk (renderBuild segs fin vals)) ∧
    ((∀ p ∈ vals, '{' ∉ (pyStr p.2).data ∧ '}' ∉ (pyStr p.2).data) →
      '{' ∉ renderBuild segs fin vals ∧ '}' ∉ renderBuild segs fin vals) ∧
    (∀ tok, (tok = "None".data ∨ tok = "nan".data) →
      (∀ p ∈ vals, isMissingSentinel p.2 = true) →
      (∀ p ∈ segs, ¬ tok <:+: p.1) → ¬ tok <:+: fin →
      ¬ containsTok (renderBuild segs fin vals) tok) := by
  refine ⟨build_fill segs fin vals hlit hname hfin, fun hv => ?_, ?_⟩
  · constructor
    · exact renderBuild_no_brace segs fin vals '{' (Or.inl rfl)
        (fun p hp h => (hlit p hp '{' h).1 rfl)
        (fun h => (hfin '{' h).1 rfl)
        (fun p hp => (hv p hp).1)
    · exact renderBuild_no_brace segs fin vals '}' (Or.inr rfl)
        (fun p hp h => (hlit p hp '}' h).2 rfl)
        (fun h => (hfin '}' h).2 rfl)
        (fun p hp => (hv p hp).2)
  · intro tok htok hv hlits hfins
    have h1 : '[' ∉ tok := by rcases htok with rfl | rfl <;> decide
    have h2 : ']' ∉ tok := by rcases htok with rfl | rfl <;> decide
    have h3 : ¬ tok <:+: "[NOT AVAILABLE]".data := by
      rcases htok with rfl | rfl <;> decide
    exact renderBuild_no_token tok h1 h2 h3 segs fin vals hv hlits hfins

theorem c7_no_braces_or_tokens_under_sentinels_witness :
    fill_template (String.mk (buildTemplate [("Patient ".data, "name")] " recovered.".data))
        [("name", PyValue.none)] =
      Except.ok (String.mk (renderBuild [("Patient ".data, "name")] " recovered.".data
        [("name", PyValue.none)])) ∧
    ¬ containsTok (renderBuild [("Patient ".data, "name")] " recovered.".data
        [("name", PyValue.none)]) "None".data := by
  have h := c7_no_braces_or_tokens_under_sentinels [("Patient ".data, "name")]
    " recovered.".data [("name", PyValue.none)]
    (by intro p hp; simp at hp; subst hp; decide)
    (by intro p hp; simp at hp; subst hp; exact ⟨by decide, by decide, by decide⟩)
    (by decide)
  exact ⟨h.1, h.2.2 "None".data (Or.inl rfl) (by decide)
    (by intro p hp; simp at hp; subst hp; decide) (by decide)⟩

/-! ### Supporting lemmas for rule 2 and the date formatter -/

theorem parseDay_consume (a b : Char) (rest : List Char) (d : Nat) (r : List Char)
    (h : parseDay (a :: b :: rest) = some (d, r)) :
    r = rest ∨ r = b :: rest := by
  unfold parseDay at h
  split at h
  · split at h <;> simp_all
  · split at h <;> simp_all
  · split at h
    · simp_all
    · split at h <;> simp_all
  · simp_all
  · simp_all

theorem strptimeDbY_digits_none (a b c : Char) (rest : List Char)
    (hb : b.isDigit = true) (hc : c.isDigit = true) :
    strptimeDbY (a :: b :: c :: rest) = none := by
  unfold strptimeDbY
  rcases hpd : parseDay (a :: b :: c :: rest) with _ | ⟨d, r⟩
  · simp
  · have := parseDay_consume a b (c :: rest) d r hpd
    have hbne : b ≠ '-' := fun he => by rw [he] at hb; exact absurd hb (by decide)
    have hcne : c ≠ '-' := fun he => by rw [he] at hc; exact absurd hc (by decide)
    simp [hpd]
    rcases this with hr | hr <;> subst hr <;> split <;> simp_all


theorem isoShape_spec (s : List Char) (h : isoShapeAt s = true) :
    ∃ a b c d e f g h2 t, s = a :: b :: c :: d :: '-' :: e :: f :: '-' :: g :: h2 :: t ∧
      a.isDigit ∧ b.isDigit ∧ c.isDigit ∧ d.isDigit ∧
      e.isDigit ∧ f.isDigit ∧ g.isDigit ∧ h2.isDigit := by
  unfold isoShapeAt at h
  split at h
  next =>
    simp only [Bool.and_eq_true] at h
    exact ⟨_, _, _, _, _, _, _, _, _, rfl,
      h.1.1.1.1.1.1.1, h.1.1.1.1.1.1.2, h.1.1.1.1.1.2, h.1.1.1.1.2,
      h.1.1.1.2, h.1.1.2, h.1.2, h.2⟩
  next => exact absurd h (by decide)

theorem isoShape_len (s : List Char) (h : isoShapeAt s = true) : 10 ≤ s.length := by
  obtain ⟨a, b, c, d, e, f, g, h2, t, hs, _⟩ := isoShape_spec s h
  subst hs
  simp

theorem isoShape_d0 (s : List Char) (h : isoShapeAt s = true) :
    (s.getD 0 ' ').isDigit = true := by
  obtain ⟨a, b, c, d, e, f, g, h2, t, hs, h1, _⟩ := isoShape_spec s h
  subst hs
  simpa using h1

theorem isoShape_d1 (s : List Char) (h : isoShapeAt s = true) :
    (s.getD 1 ' ').isDigit = true := by
  obtain ⟨a, b, c, d, e, f, g, h2, t, hs, _, h1, _⟩ := isoShape_spec s h
  subst hs
  simpa using h1

theorem isoShape_d2 (s : List Char) (h : isoShapeAt s = true) :
    (s.getD 2 ' ').isDigit = true := by
  obtain ⟨a, b, c, d, e, f, g, h2, t, hs, _, _, h1, _⟩ := isoShape_spec s h
  subst hs
  simpa using h1

theorem rule2Go_of_noIsoMatch (s : List Char) : ∀ pw, noIsoMatch pw s = true →
    rule2Go pw s = s := by
  induction s with
  | nil => intro pw _; rw [rule2Go]
  | cons c rest ih =>
    intro pw h
    simp only [noIsoMatch, Bool.and_eq_true, Bool.not_eq_true'] at h
    rw [rule2Go]
    simp [h.1, ih _ h.2]


theorem rule2Repl_eq_FF (span : List Char) (h1 : (span.getD 1 ' ').isDigit = true)
    (h2 : (span.getD 2 ' ').isDigit = true) (hne : span ≠ []) :
    rule2ReplFF span = rule2Repl span := by
  rcases span with _ | ⟨a, _ | ⟨b, _ | ⟨c, rest⟩⟩⟩
  · exact absurd rfl hne
  · simp at h1
  · simp at h2
  · have hdb := strptimeDbY_digits_none a b c rest (by simpa using h1) (by simpa using h2)
    unfold rule2ReplFF rule2Repl format_field parse_date
    rcases hy : strptimeYmd (a :: b :: c :: rest) with _ | ⟨y, m, d⟩
    · simp [hy, hdb, String.data]
    · simp [hy, String.data]

theorem rule2Go_eq_FF (n : Nat) : ∀ (s : List Char), s.length ≤ n → ∀ pw,
    rule2GoFF pw s = rule2Go pw s := by
  induction n with
  | zero =>
    intro s hs pw
    have : s = [] := List.eq_nil_of_length_eq_zero (Nat.le_zero.mp hs)
    subst this
    rw [rule2Go, rule2GoFF]
  | succ k ih =>
    intro s hs pw
    rcases s with _ | ⟨c, rest⟩
    · rw [rule2Go, rule2GoFF]
    · rw [rule2Go, rule2GoFF]
      by_cases hm : iso2MatchAt pw (c :: rest) = true
      · simp only [hm, if_true]
        have hshape : isoShapeAt (c :: rest) = true := by
          unfold iso2MatchAt at hm
          simp only [Bool.and_eq_true] at hm
          exact hm.1.2
        have hlen10 := isoShape_len _ hshape
        have htake_ne : (c :: rest).take 10 ≠ [] := by simp
        have ht1 : ((c :: rest).take 10).getD 1 ' ' = (c :: rest).getD 1 ' ' := by
          rcases rest with _ | ⟨x, xs⟩ <;> simp
        have ht2 : ((c :: rest).take 10).getD 2 ' ' = (c :: rest).getD 2 ' ' := by
          rcases rest with _ | ⟨x, _ | ⟨y, ys⟩⟩ <;> simp
        rw [rule2Repl_eq_FF _ (by rw [ht1]; exact isoShape_d1 _ hshape)
              (by rw [ht2]; exact isoShape_d2 _ hshape) htake_ne]
        have : (rest.drop 9).length ≤ k := by
          simp at hs ⊢
          omega
        rw [ih _ this]
      · have hmf : iso2MatchAt pw (c :: rest) = false := by simpa using hm
        simp at hs
        rw [ih rest (by omega)]
        simp [hmf]


theorem rule2_token (s : List Char) (hs : isoShapeAt s = true) (hl : s.length = 10) :
    rule2 s = rule2Repl s := by
  obtain ⟨a, b, c, d, e, f, g, h2, t, hstr, _⟩ := isoShape_spec s hs
  have ht : t = [] := by
    subst hstr
    simp at hl
    exact hl
  subst ht
  subst hstr
  unfold rule2
  rw [rule2Go]
  have hm : iso2MatchAt false
      (a :: b :: c :: d :: '-' :: e :: f :: '-' :: g :: h2 :: []) = true := by
    unfold iso2MatchAt
    simp [hs]
  rw [hm]
  simp
  rw [rule2Go]

theorem monthAbbrev_shape (m : Nat) (h1 : 1 ≤ m) (h2 : m ≤ 12) :
    ∃ M1 M2 M3 : Char, (monthAbbrev m).data = [M1, M2, M3] ∧
      M1.isDigit = false ∧ M2.isDigit = false ∧ M3.isDigit = false := by
  interval_cases m <;> refine ⟨_, _, _, rfl, ?_, ?_, ?_⟩ <;> decide

theorem isoShape_false_of_d0 (s : List Char) (h : (s.getD 0 ' ').isDigit = false) :
    isoShapeAt s = false := by
  rcases hx : isoShapeAt s with _ | _
  · rfl
  · rw [isoShape_d0 s hx] at h
    exact absurd h (by decide)

theorem isoShape_false_of_d1 (s : List Char) (h : (s.getD 1 ' ').isDigit = false) :
    isoShapeAt s = false := by
  rcases hx : isoShapeAt s with _ | _
  · rfl
  · rw [isoShape_d1 s hx] at h
    exact absurd h (by decide)

theorem isoShape_false_of_d2 (s : List Char) (h : (s.getD 2 ' ').isDigit = false) :
    isoShapeAt s = false := by
  rcases hx : isoShapeAt s with _ | _
  · rfl
  · rw [isoShape_d2 s hx] at h
    exact absurd h (by decide)

theorem isoShape_false_of_len (s : List Char) (h : s.length < 10) :
    isoShapeAt s = false := by
  rcases hx : isoShapeAt s with _ | _
  · rfl
  · exact absurd (isoShape_len s hx) (by omega)

theorem iso2MatchAt_false_of_shape (pw : Bool) (s : List Char)
    (h : isoShapeAt s = false) : iso2MatchAt pw s = false := by
  unfold iso2MatchAt
  simp [h]


theorem dmy_noIsoMatch (y m d : Nat) (h1 : 1 ≤ m) (h2 : m ≤ 12) :
    ∀ pw, noIsoMatch pw ((strftimeDmY y m d).data) = true := by
  obtain ⟨M1, M2, M3, hM, hd1, hd2, hd3⟩ := monthAbbrev_shape m h1 h2
  intro pw
  have hdata : (strftimeDmY y m d).data =
      [Nat.digitChar (d / 10 % 10), Nat.digitChar (d % 10), '-', M1, M2, M3, '-',
       Nat.digitChar (y / 1000 % 10), Nat.digitChar (y / 100 % 10),
       Nat.digitChar (y / 10 % 10), Nat.digitChar (y % 10)] := by
    unfold strftimeDmY pad2 pad4
    simp [String.data_append, hM]
  rw [hdata]
  simp only [noIsoMatch, Bool.and_eq_true, Bool.not_eq_true']
  refine ⟨?_, ?_, ?_, ?_, ?_, ?_, ?_, ?_, ?_, ?_, ?_, trivial⟩
  · exact iso2MatchAt_false_of_shape _ _ (isoShape_false_of_d2 _ (by simp +decide))
  · exact iso2MatchAt_false_of_shape _ _ (isoShape_false_of_d1 _ (by simp +decide))
  · exact iso2MatchAt_false_of_shape _ _ (isoShape_false_of_d0 _ (by simp +decide))
  · exact iso2MatchAt_false_of_shape _ _ (isoShape_false_of_d0 _ (by simp [hd1]))
  · exact iso2MatchAt_false_of_shape _ _ (isoShape_false_of_d0 _ (by simp [hd2]))
  · exact iso2MatchAt_false_of_shape _ _ (isoShape_false_of_d0 _ (by simp [hd3]))
  · exact iso2MatchAt_false_of_shape _ _ (isoShape_false_of_d0 _ (by simp +decide))
  · exact iso2MatchAt_false_of_shape _ _ (isoShape_false_of_len _ (by simp +decide))
  · exact iso2MatchAt_false_of_shape _ _ (isoShape_false_of_len _ (by simp +decide))
  · exact iso2MatchAt_false_of_shape _ _ (isoShape_false_of_len _ (by simp +decide))
  · exact iso2MatchAt_false_of_shape _ _ (isoShape_false_of_len _ (by simp +decide))


/-! ## C6 — rule 2 and the Field Resolver's date formatter agree -/

/-- C6: (1) rule 2 applied with its inline replacement equals rule 2 applied
with every replacement produced by `FieldMapper.format_field`'s date
formatter — so every ISO date rewritten anywhere in a text is rewritten to
exactly the form the Field Resolver produces; (2) a value already in
`DD-Mon-YYYY` form, as produced by the formatter, is left unchanged by
rule 2; (3) a parseable standalone ISO token is rewritten to that
`DD-Mon-YYYY` form, the same one `format_field` returns; (4) an
ISO-shaped but unparseable token is left unchanged. -/
theorem c6_rule2_matches_formatter :
    (∀ s : List Char, rule2FF s = rule2 s) ∧
    (∀ y m d : Nat, 1 ≤ m → m ≤ 12 →
        rule2 ((strftimeDmY y m d).data) = (strftimeDmY y m d).data) ∧
    (∀ (s : List Char) (y m d : Nat), isoShapeAt s = true → s.length = 10 →
        strptimeYmd s = some (y, m, d) →
        rule2 s = (strftimeDmY y m d).data ∧
        format_field (some "date") (some (String.mk s)) = some (strftimeDmY y m d)) ∧
    (∀ s : List Char, isoShapeAt s = true → s.length = 10 →
        strptimeYmd s = none → rule2 s = s) := by
  refine ⟨fun s => ?_, fun y m d h1 h2 => ?_, fun s y m d hs hl hy => ⟨?_, ?_⟩,
    fun s hs hl hy => ?_⟩
  · exact rule2Go_eq_FF s.length s le_rfl false
  · exact rule2Go_of_noIsoMatch _ false (dmy_noIsoMatch y m d h1 h2 false)
  · rw [rule2_token s hs hl]
    unfold rule2Repl
    rw [hy]
  · unfold format_field parse_date
    simp [hy]
  · rw [rule2_token s hs hl]
    unfold rule2Repl
    rw [hy]

theorem c6_rule2_matches_formatter_witness :
    rule2 "2024-01-05".data = "05-Jan-2024".data ∧
    rule2 "05-Jan-2024".data = "05-Jan-2024".data ∧
    rule2 "2024-13-05".data = "2024-13-05".data := by
  refine ⟨?_, ?_, ?_⟩
  · have h := (c6_rule2_matches_formatter.2.2.1 "2024-01-05".data 2024 1 5
      (by decide) (by decide) (by decide)).1
    rw [h]
    decide
  · have h := c6_rule2_matches_formatter.2.1 2024 1 5 (by decide) (by decide)
    have he : (strftimeDmY 2024 1 5).data = "05-Jan-2024".data := by decide
    rw [he] at h
    exact h
  · exact c6_rule2_matches_formatter.2.2.2 "2024-13-05".data (by decide) (by decide)
      (by decide)


/-! ### The business rules: per-rule idempotence machinery -/

theorem char_upper_enum (c : Char) (h1 : 65 ≤ c.toNat) (h2 : c.toNat ≤ 90) :
    c ∈ ['A','B','C','D','E','F','G','H','I','J','K','L','M',
         'N','O','P','Q','R','S','T','U','V','W','X','Y','Z'] := by
  have hc : c = Char.ofNat c.toNat := (Char.ofNat_toNat c).symm
  set n := c.toNat with hn
  interval_cases n <;> (rw [hc]; decide)

theorem toLower_of_not_upper (c : Char) (h : ¬(65 ≤ c.toNat ∧ c.toNat ≤ 90)) :
    c.toLower = c := by
  unfold Char.toLower
  simp only []
  rw [if_neg h]

theorem toLower_idem (c : Char) : c.toLower.toLower = c.toLower := by
  by_cases h : 65 ≤ c.toNat ∧ c.toNat ≤ 90
  · have := char_upper_enum c h.1 h.2
    fin_cases this <;> decide
  · simp only [toLower_of_not_upper c h]

theorem word_toLower (c : Char) : isWordChar c.toLower = isWordChar c := by
  by_cases h : 65 ≤ c.toNat ∧ c.toNat ≤ 90
  · have := char_upper_enum c h.1 h.2
    fin_cases this <;> decide
  · rw [toLower_of_not_upper c h]

theorem digit_toLower (c : Char) : c.toLower.isDigit = c.isDigit := by
  by_cases h : 65 ≤ c.toNat ∧ c.toNat ≤ 90
  · have := char_upper_enum c h.1 h.2
    fin_cases this <;> decide
  · rw [toLower_of_not_upper c h]

theorem toLower_eq_low (c d : Char) (h : c.toLower = d) (hd : d.toNat < 97) :
    c = d := by
  by_cases hb : 65 ≤ c.toNat ∧ c.toNat ≤ 90
  · have := char_upper_enum c hb.1 hb.2
    fin_cases this <;> (rw [← h] at hd; simp at hd)
  · rw [← h, toLower_of_not_upper c hb]

/- ===== prefix machinery ===== -/

theorem chEq_word (ci : Bool) (a b : Char) (h : chEq ci a b = true) :
    isWordChar a = isWordChar b := by
  unfold chEq at h
  cases ci with
  | false => simp at h; rw [h]
  | true =>
    simp at h
    rw [← word_toLower a, ← word_toLower b, h]

theorem cipfx_nil (ci : Bool) (s : List Char) : cipfx ci [] s = true := by
  cases ci <;> simp [cipfx, ciPrefix, List.isPrefixOf]

theorem cipfx_nil_right (ci : Bool) (p : Char) (ps : List Char) :
    cipfx ci (p :: ps) [] = false := by
  cases ci <;> simp [cipfx, ciPrefix, List.isPrefixOf]

theorem cipfx_cons (ci : Bool) (p c : Char) (ps cs : List Char) :
    cipfx ci (p :: ps) (c :: cs) = (chEq ci p c && cipfx ci ps cs) := by
  cases ci with
  | true => simp [cipfx, ciPrefix, chEq]
  | false =>
    simp [cipfx, List.isPrefixOf, chEq]
    by_cases h : p = c <;> simp [h]

theorem cipfx_length (ci : Bool) (pat s : List Char) (h : cipfx ci pat s = true) :
    pat.length ≤ s.length := by
  induction pat generalizing s with
  | nil => simp
  | cons p ps ih =>
    cases s with
    | nil => rw [cipfx_nil_right] at h; exact absurd h (by simp)
    | cons c cs =>
      rw [cipfx_cons] at h
      simp at h ⊢
      exact ih cs h.2

theorem cipfx_append_left (ci : Bool) (pat f X : List Char)
    (h : pat.length ≤ f.length) : cipfx ci pat (f ++ X) = cipfx ci pat f := by
  induction pat generalizing f with
  | nil => rw [cipfx_nil, cipfx_nil]
  | cons p ps ih =>
    cases f with
    | nil => simp at h
    | cons c cs =>
      rw [List.cons_append, cipfx_cons, cipfx_cons, ih cs (by simpa using h)]

theorem cipfx_take (ci : Bool) (pat f X : List Char)
    (h : cipfx ci pat (f ++ X) = true) : cipfx ci (pat.take f.length) f = true := by
  induction pat generalizing f with
  | nil => rw [List.take_nil]; exact cipfx_nil ci f
  | cons p ps ih =>
    cases f with
    | nil =>
      simp only [List.length_nil, List.take_zero]
      exact cipfx_nil ci []
    | cons c cs =>
      rw [List.cons_append, cipfx_cons] at h
      simp at h
      rw [List.length_cons, List.take_succ_cons, cipfx_cons]
      simp [h.1]
      exact ih cs h.2

theorem cipfx_getD (ci : Bool) (pat s : List Char) (h : cipfx ci pat s = true) :
    ∀ i < pat.length, chEq ci (pat.getD i ' ') (s.getD i ' ') = true := by
  induction pat generalizing s with
  | nil => simp
  | cons p ps ih =>
    cases s with
    | nil => rw [cipfx_nil_right] at h; exact absurd h (by simp)
    | cons c cs =>
      rw [cipfx_cons] at h
      simp only [Bool.and_eq_true] at h
      intro i hi
      cases i with
      | zero => simpa using h.1
      | succ j =>
        simp only [List.getD_cons_succ]
        exact ih cs h.2 j (by simpa using hi)

theorem headCompat_cons (ci : Bool) (a b : Char) (q r : List Char) :
    headCompat ci (a :: q) (b :: r) = (chEq ci a b && headCompat ci q r) := by
  unfold headCompat
  by_cases h : q.length ≤ r.length
  · rw [if_pos (by simpa using h), if_pos h, cipfx_cons]
  · rw [if_neg (by simpa using h), if_neg h]
    rw [List.length_cons, List.take_succ_cons, cipfx_cons]

theorem headCompat_false (ci : Bool) (q r X : List Char)
    (h : headCompat ci q r = false) (hq : q ≠ []) :
    cipfx ci q (r ++ X) = false := by
  induction q generalizing r with
  | nil => exact absurd rfl hq
  | cons a q' ih =>
    cases r with
    | nil =>
      exfalso
      unfold headCompat at h
      rw [if_neg (by simp)] at h
      simp only [List.length_nil, List.take_zero, cipfx_nil] at h
      exact absurd h (by simp)
    | cons b r' =>
      rw [headCompat_cons] at h
      rw [List.cons_append, cipfx_cons]
      rcases Bool.and_eq_false_iff.mp h with h1 | h2
      · rw [h1, Bool.false_and]
      · by_cases hq' : q' = []
        · subst hq'
          exfalso
          unfold headCompat at h2
          rw [if_pos (by simp)] at h2
          rw [cipfx_nil] at h2
          exact absurd h2 (by simp)
        · rw [ih r' h2 hq', Bool.and_false]

theorem wbMatchAt_dec (ci : Bool) (pat : List Char) (pw : Bool) (c : Char) (x : List Char) :
    wbMatchAt ci pat pw (c :: x) =
      (decide (pat ≠ []) && (pw != isWordChar c) && wbTailAt ci pat 0 (c :: x)) := by
  show (decide (pat ≠ []) && cipfx ci pat (c :: x) && (pw != isWordChar c) &&
    (match (c :: x).drop pat.length with
     | [] => isWordChar ((c :: x).getD (pat.length - 1) ' ')
     | d :: _ => isWordChar ((c :: x).getD (pat.length - 1) ' ') != isWordChar d)) = _
  unfold wbTailAt
  simp only [List.drop_zero, Nat.sub_zero]
  cases hA : decide (pat ≠ []) <;> cases hP : cipfx ci pat (c :: x) <;>
    cases hH : (pw != isWordChar c) <;> simp

theorem wbTailAt_step (ci : Bool) (pat : List Char) (m : Nat) (c : Char) (x : List Char)
    (hm : m + 1 < pat.length) :
    wbTailAt ci pat m (c :: x) =
      (chEq ci (pat.getD m ' ') c && wbTailAt ci pat (m + 1) x) := by
  unfold wbTailAt
  have hdrop : pat.drop m = pat.getD m ' ' :: pat.drop (m + 1) := by
    rw [List.drop_eq_getElem_cons (show m < pat.length by omega)]
    rw [List.getD_eq_getElem pat ' ' (show m < pat.length by omega)]
  rw [hdrop, cipfx_cons]
  have h1 : (c :: x).drop (pat.length - m) = x.drop (pat.length - (m + 1)) := by
    have he : pat.length - m = (pat.length - (m + 1)) + 1 := by omega
    rw [he, List.drop_succ_cons]
  have h2 : (c :: x).getD (pat.length - m - 1) ' ' = x.getD (pat.length - (m + 1) - 1) ' ' := by
    have he : pat.length - m - 1 = (pat.length - (m + 1) - 1) + 1 := by omega
    rw [he, List.getD_cons_succ]
  rw [h1, h2, Bool.and_assoc]

theorem wbTailAt_last (ci : Bool) (pat : List Char) (m : Nat) (c : Char) (x : List Char)
    (hm : m + 1 = pat.length) :
    wbTailAt ci pat m (c :: x) =
      (chEq ci (pat.getD m ' ') c && bndOk c x) := by
  unfold wbTailAt
  have hdrop : pat.drop m = [pat.getD m ' '] := by
    rw [List.drop_eq_getElem_cons (show m < pat.length by omega)]
    rw [List.getD_eq_getElem pat ' ' (show m < pat.length by omega)]
    have : pat.drop (m + 1) = [] := List.drop_eq_nil_of_le (by omega)
    rw [this]
  rw [hdrop, cipfx_cons]
  have h1 : pat.length - m = 1 := by omega
  rw [h1]
  simp only [List.drop_succ_cons, List.drop_zero, Nat.sub_self, List.getD_cons_zero]
  rw [cipfx_nil]
  rw [Bool.and_true]
  rfl

theorem grdFail_spec (ci : Bool) (pat : List Char) (pw : Bool) (f X : List Char)
    (h : grdFail ci pat pw f = true) (hf : f ≠ []) :
    wbMatchAt ci pat pw (f ++ X) = false := by
  unfold grdFail at h
  by_cases hl : pat.length < f.length
  · rw [if_pos hl] at h
    have heq : wbMatchAt ci pat pw (f ++ X) = wbMatchAt ci pat pw f := by
      show (decide (pat ≠ []) && cipfx ci pat (f ++ X) && _ && _) =
        (decide (pat ≠ []) && cipfx ci pat f && _ && _)
      rw [cipfx_append_left ci pat f X (by omega)]
      have hh : ∀ (b1 b2 b3 b3' b4 b4' : Bool), b3 = b3' → b4 = b4' →
          (b1 && b2 && b3 && b4) = (b1 && b2 && b3' && b4') := by
        intro b1 b2 b3 b3' b4 b4' e3 e4
        rw [e3, e4]
      apply hh
      · cases f with
        | nil => exact absurd rfl hf
        | cons a as => rfl
      · have hd : (f ++ X).drop pat.length = f.drop pat.length ++ X := by
          rw [List.drop_append_eq_append_drop]
          rw [show pat.length - f.length = 0 by omega, List.drop_zero]
        have hg : (f ++ X).getD (pat.length - 1) ' ' = f.getD (pat.length - 1) ' ' := by
          rw [List.getD_append]
          omega
        rw [hd, hg]
        cases hfd : f.drop pat.length with
        | nil =>
          exfalso
          have := congrArg List.length hfd
          simp [List.length_drop] at this
          omega
        | cons d ds => rfl
    rw [heq]
    simpa using h
  · rw [if_neg hl] at h
    cases f with
    | nil => exact absurd rfl hf
    | cons a as =>
      have h9 : cipfx ci (pat.take (a :: as).length) (a :: as) = false ∨
          (pw != isWordChar a) = false := by
        simpa using h
      rcases h9 with h1 | h2
      · cases hx : cipfx ci pat ((a :: as) ++ X) with
        | false =>
          show (_ && cipfx ci pat ((a :: as) ++ X) && _ && _) = false
          rw [hx]
          simp
        | true => exact absurd (cipfx_take ci pat (a :: as) X hx) (by simpa using h1)
      · show (_ && _ && (pw != isWordChar a) && _) = false
        rw [h2]
        simp

theorem endW_cons (pw : Bool) (c : Char) (l : List Char) :
    endW pw (c :: l) = endW (isWordChar c) l := by
  unfold endW
  cases l with
  | nil => rfl
  | cons d ds =>
    rw [List.getLast?_cons_cons]
    cases h : (d :: ds).getLast? with
    | none => simp at h
    | some e => rfl

theorem scan_through (ci : Bool) (pat : List Char) :
    ∀ (front : List Char) (pw : Bool) (X : List Char),
      noMatchThrough ci pat pw front = true →
      noWbMatch ci pat (endW pw front) X = true →
      noWbMatch ci pat pw (front ++ X) = true := by
  intro front
  induction front with
  | nil =>
    intro pw X h1 h2
    simpa using h2
  | cons c fr ih =>
    intro pw X h1 h2
    rw [noMatchThrough] at h1
    simp only [Bool.and_eq_true] at h1
    rw [List.cons_append, noWbMatch]
    simp only [Bool.and_eq_true]
    constructor
    · rw [show c :: (fr ++ X) = (c :: fr) ++ X from rfl]
      rw [grdFail_spec ci pat pw (c :: fr) X h1.1 (by simp)]
      simp
    · exact ih (isWordChar c) X h1.2 (by rw [← endW_cons]; exact h2)

theorem noWbMatch_drop (ci : Bool) (pat : List Char) :
    ∀ (s : List Char) (pw : Bool) (k : Nat), 1 ≤ k → k ≤ s.length →
      noWbMatch ci pat pw s = true →
      noWbMatch ci pat (isWordChar (s.getD (k - 1) ' ')) (s.drop k) = true := by
  intro s
  induction s with
  | nil =>
    intro pw k h1 h2 h3
    simp at h2
    omega
  | cons c rest ih =>
    intro pw k h1 h2 h3
    rw [noWbMatch] at h3
    simp only [Bool.and_eq_true] at h3
    match k, h1 with
    | 1, _ => simpa using h3.2
    | (k'' + 2), _ =>
      have := ih (isWordChar c) (k'' + 1) (by omega) (by simp at h2; omega) h3.2
      simpa using this

theorem noWbMatch_id (ci : Bool) (pat repl : List Char) :
    ∀ (s : List Char) (pw : Bool), noWbMatch ci pat pw s = true →
      wbGo ci pat repl pw s = s := by
  intro s
  induction s with
  | nil => intro pw h; simp [wbGo]
  | cons c rest ih =>
    intro pw h
    rw [noWbMatch] at h
    simp only [Bool.and_eq_true] at h
    have h1 : wbMatchAt ci pat pw (c :: rest) = false := by simpa using h.1
    rw [wbGo, if_neg (by simp [h1]), ih (isWordChar c) h.2]

theorem wbMatchAt_parts (ci : Bool) (pat : List Char) (pw : Bool) (c : Char) (x : List Char)
    (h : wbMatchAt ci pat pw (c :: x) = true) :
    pat ≠ [] ∧ cipfx ci pat (c :: x) = true ∧ (pw != isWordChar c) = true := by
  unfold wbMatchAt at h
  simp only [Bool.and_eq_true] at h
  exact ⟨by simpa using h.1.1.1, h.1.1.2, h.1.2⟩

theorem wbGo_headWord (ci : Bool) (patB replB : List Char)
    (hrne : replB ≠ [])
    (hC4 : isWordChar (replB.headD ' ') = isWordChar (patB.headD ' ')) :
    ∀ (x : List Char) (pw : Bool),
      (wbGo ci patB replB pw x).head?.map isWordChar = x.head?.map isWordChar := by
  intro x pw
  cases x with
  | nil => simp [wbGo]
  | cons c rest =>
    rw [wbGo]
    by_cases hm : wbMatchAt ci patB pw (c :: rest) = true
    · rw [if_pos hm]
      obtain ⟨hne, hpfx, hbnd⟩ := wbMatchAt_parts ci patB pw c rest hm
      cases patB with
      | nil => exact absurd rfl hne
      | cons p0 ps =>
        cases replB with
        | nil => exact absurd rfl hrne
        | cons r0 rs =>
          rw [cipfx_cons] at hpfx
          simp only [Bool.and_eq_true] at hpfx
          have hwc : isWordChar p0 = isWordChar c := chEq_word ci p0 c hpfx.1
          simp only [List.headD_cons] at hC4
          show some (isWordChar r0) = some (isWordChar c)
          rw [hC4, hwc]
    · rw [if_neg hm]
      rfl

theorem wbTailAt_append_false (ci : Bool) (pat : List Char) (m : Nat) (r X : List Char)
    (hm : m < pat.length)
    (h : tailCompat ci (pat.drop m) r = false) (hrne : r ≠ []) :
    wbTailAt ci pat m (r ++ X) = false := by
  have hql : (pat.drop m).length = pat.length - m := by simp
  have hqne : pat.drop m ≠ [] := by
    intro hc
    have := congrArg List.length hc
    simp at this
    omega
  unfold wbTailAt
  unfold tailCompat at h
  by_cases h1 : (pat.drop m).length < r.length
  · rw [if_pos h1] at h
    rcases Bool.and_eq_false_iff.mp h with h2 | h3
    · rw [cipfx_append_left ci (pat.drop m) r X (by omega), h2, Bool.false_and]
    · have hd : (r ++ X).drop (pat.length - m) = r.drop (pat.length - m) ++ X := by
        rw [List.drop_append_eq_append_drop,
            show pat.length - m - r.length = 0 by omega, List.drop_zero]
      have hg : (r ++ X).getD (pat.length - m - 1) ' ' = r.getD (pat.length - m - 1) ' ' := by
        rw [List.getD_append]
        omega
      rw [hd, hg]
      cases hrd : r.drop (pat.length - m) with
      | nil =>
        exfalso
        have := congrArg List.length hrd
        simp at this
        omega
      | cons d ds =>
        have hdval : d = r.getD (pat.length - m) ' ' := by
          have hgec := List.drop_eq_getElem_cons (show pat.length - m < r.length by omega) (l := r)
          rw [hrd] at hgec
          have := List.getD_eq_getElem r ' ' (show pat.length - m < r.length by omega)
          rw [this]
          exact (List.cons.injEq _ _ _ _ ▸ hgec).1
        rw [List.cons_append]
        have hbfalse : (isWordChar (r.getD (pat.length - m - 1) ' ') != isWordChar d) = false := by
          rw [hdval]
          rw [hql] at h3
          exact h3
        rw [show (match (d :: (ds ++ X) : List Char) with
              | [] => isWordChar (r.getD (pat.length - m - 1) ' ')
              | c :: _ => isWordChar (r.getD (pat.length - m - 1) ' ') != isWordChar c) =
            (isWordChar (r.getD (pat.length - m - 1) ' ') != isWordChar d) from rfl]
        rw [hbfalse, Bool.and_false]
  · rw [if_neg h1] at h
    by_cases h2 : (pat.drop m).length = r.length
    · rw [if_pos h2] at h
      rw [cipfx_append_left ci (pat.drop m) r X (by omega), h, Bool.false_and]
    · rw [if_neg h2] at h
      have hhc : headCompat ci (pat.drop m) r = false := by
        unfold headCompat
        rw [if_neg (by omega)]
        exact h
      rw [headCompat_false ci (pat.drop m) r X hhc hqne, Bool.false_and]

theorem head_boundary_transport (ci : Bool) (patB replB : List Char)
    (hrne : replB ≠ [])
    (hC4 : isWordChar (replB.headD ' ') = isWordChar (patB.headD ' '))
    (c : Char) (rest : List Char) (pw : Bool)
    (h : bndOk c (wbGo ci patB replB pw rest) = true) :
    bndOk c rest = true := by
  have hw := wbGo_headWord ci patB replB hrne hC4 rest pw
  cases rest with
  | nil => simpa [wbGo, bndOk] using h
  | cons d ds =>
    cases hout : wbGo ci patB replB pw (d :: ds) with
    | nil =>
      rw [hout] at hw
      simp at hw
    | cons e es =>
      rw [hout] at h hw
      have hw2 : isWordChar e = isWordChar d := by simpa using hw
      have h2 : (isWordChar c != isWordChar e) = true := by simpa [bndOk] using h
      show (isWordChar c != isWordChar d) = true
      rw [← hw2]
      exact h2

theorem wbTail_transport (ci : Bool) (patA patB replB : List Char)
    (hrne : replB ≠ [])
    (hC4 : isWordChar (replB.headD ' ') = isWordChar (patB.headD ' '))
    (hD2 : ∀ m, m < patA.length → 1 ≤ m → tailCompat ci (patA.drop m) replB = false) :
    ∀ (n : Nat) (s : List Char), s.length ≤ n → ∀ (pw : Bool) (m : Nat),
      1 ≤ m → m < patA.length →
      wbTailAt ci patA m (wbGo ci patB replB pw s) = true →
      wbTailAt ci patA m s = true := by
  intro n
  induction n with
  | zero =>
    intro s hs pw m hm1 hm2 h
    have hnil : s = [] := List.eq_nil_of_length_eq_zero (by omega)
    subst hnil
    simpa [wbGo] using h
  | succ n ih =>
    intro s hs pw m hm1 hm2 h
    cases s with
    | nil => simpa [wbGo] using h
    | cons c rest =>
      rw [wbGo] at h
      by_cases hmatch : wbMatchAt ci patB pw (c :: rest) = true
      · rw [if_pos hmatch] at h
        rw [wbTailAt_append_false ci patA m replB _ hm2 (hD2 m hm2 hm1) hrne] at h
        exact absurd h (by simp)
      · rw [if_neg hmatch] at h
        by_cases hlast : m + 1 = patA.length
        · rw [wbTailAt_last ci patA m c _ hlast] at h
          rw [wbTailAt_last ci patA m c rest hlast]
          simp only [Bool.and_eq_true] at h ⊢
          exact ⟨h.1,
            head_boundary_transport ci patB replB hrne hC4 c rest (isWordChar c) h.2⟩
        · have hstep : m + 1 < patA.length := by omega
          rw [wbTailAt_step ci patA m c _ hstep] at h
          rw [wbTailAt_step ci patA m c rest hstep]
          simp only [Bool.and_eq_true] at h ⊢
          refine ⟨h.1, ?_⟩
          exact ih rest (by simp at hs; omega) (isWordChar c) (m + 1) (by omega) hstep h.2

theorem wbMatchAt_transport_false (ci : Bool) (patA patB replB : List Char)
    (hrne : replB ≠ [])
    (hC4 : isWordChar (replB.headD ' ') = isWordChar (patB.headD ' '))
    (hD2 : ∀ m, m < patA.length → 1 ≤ m → tailCompat ci (patA.drop m) replB = false)
    (hAne : patA ≠ [])
    (c : Char) (rest : List Char) (pw : Bool)
    (horig : wbMatchAt ci patA pw (c :: rest) = false) :
    wbMatchAt ci patA pw (c :: wbGo ci patB replB (isWordChar c) rest) = false := by
  by_contra hcon
  replace hcon : wbMatchAt ci patA pw (c :: wbGo ci patB replB (isWordChar c) rest) = true := by
    simpa using hcon
  rw [wbMatchAt_dec] at hcon
  simp only [Bool.and_eq_true] at hcon
  obtain ⟨⟨hA, hbnd⟩, htail⟩ := hcon
  have hAlen : 1 ≤ patA.length := by
    cases patA with
    | nil => exact absurd rfl hAne
    | cons a as => simp
  have horig2 : wbMatchAt ci patA pw (c :: rest) = true := by
    rw [wbMatchAt_dec]
    simp only [Bool.and_eq_true]
    refine ⟨⟨hA, hbnd⟩, ?_⟩
    by_cases h1 : 0 + 1 = patA.length
    · rw [wbTailAt_last ci patA 0 c _ h1] at htail
      rw [wbTailAt_last ci patA 0 c rest h1]
      simp only [Bool.and_eq_true] at htail ⊢
      exact ⟨htail.1,
        head_boundary_transport ci patB replB hrne hC4 c rest (isWordChar c) htail.2⟩
    · have h2 : 0 + 1 < patA.length := by omega
      rw [wbTailAt_step ci patA 0 c _ h2] at htail
      rw [wbTailAt_step ci patA 0 c rest h2]
      simp only [Bool.and_eq_true] at htail ⊢
      exact ⟨htail.1,
        wbTail_transport ci patA patB replB hrne hC4 hD2 rest.length rest le_rfl
          (isWordChar c) 1 (by omega) h2 htail.2⟩
  rw [horig2] at horig
  exact absurd horig (by simp)

theorem endW_eq_getD (l : List Char) (hl : l ≠ []) :
    ∀ pw, endW pw l = isWordChar (l.getD (l.length - 1) ' ') := by
  induction l with
  | nil => exact absurd rfl hl
  | cons c cs ih =>
    intro pw
    cases cs with
    | nil => simp [endW]
    | cons d ds =>
      rw [endW_cons, ih (by simp) (isWordChar c)]
      have he : (c :: d :: ds).length - 1 = ((d :: ds).length - 1) + 1 := by simp
      rw [he, List.getD_cons_succ]

theorem match_pw_false (ci : Bool) (patB : List Char) (pw : Bool) (c : Char) (x : List Char)
    (hC3 : isWordChar (patB.headD ' ') = true)
    (h : wbMatchAt ci patB pw (c :: x) = true) : pw = false := by
  obtain ⟨hne, hpfx, hbnd⟩ := wbMatchAt_parts ci patB pw c x h
  cases patB with
  | nil => exact absurd rfl hne
  | cons p0 ps =>
    rw [cipfx_cons] at hpfx
    simp only [Bool.and_eq_true] at hpfx
    have hwc : isWordChar p0 = isWordChar c := chEq_word ci p0 c hpfx.1
    simp only [List.headD_cons] at hC3
    rw [hC3] at hwc
    rw [← hwc] at hbnd
    cases pw with
    | false => rfl
    | true => simp at hbnd

theorem noWbMatch_preserved (ci : Bool) (patA patB replB : List Char)
    (hBne : patB ≠ []) (hrne : replB ≠ []) (hAne : patA ≠ [])
    (hC3 : isWordChar (patB.headD ' ') = true)
    (hC4 : isWordChar (replB.headD ' ') = isWordChar (patB.headD ' '))
    (hC5 : isWordChar (replB.getD (replB.length - 1) ' ') =
           isWordChar (patB.getD (patB.length - 1) ' '))
    (hD2 : ∀ m, m < patA.length → 1 ≤ m → tailCompat ci (patA.drop m) replB = false)
    (hCG : noMatchThrough ci patA false replB = true) :
    ∀ (n : Nat) (s : List Char), s.length ≤ n → ∀ (pw : Bool),
      noWbMatch ci patA pw s = true →
      noWbMatch ci patA pw (wbGo ci patB replB pw s) = true := by
  intro n
  induction n with
  | zero =>
    intro s hs pw hyp
    have hnil : s = [] := List.eq_nil_of_length_eq_zero (by omega)
    subst hnil
    simpa [wbGo] using hyp
  | succ n ih =>
    intro s hs pw hyp
    cases s with
    | nil => simpa [wbGo] using hyp
    | cons c rest =>
      rw [wbGo]
      by_cases hmatch : wbMatchAt ci patB pw (c :: rest) = true
      · rw [if_pos hmatch]
        obtain ⟨hne, hpfx, hbnd⟩ := wbMatchAt_parts ci patB pw c rest hmatch
        have hpwf : pw = false := match_pw_false ci patB pw c rest hC3 hmatch
        subst hpwf
        have hlen : patB.length ≤ (c :: rest).length := cipfx_length ci patB _ hpfx
        have hBlen : 1 ≤ patB.length := by
          cases patB with
          | nil => exact absurd rfl hBne
          | cons b bs => simp
        have hend : endW false replB =
            isWordChar ((c :: rest).getD (patB.length - 1) ' ') := by
          rw [endW_eq_getD replB hrne false, hC5]
          exact chEq_word ci _ _ (cipfx_getD ci patB (c :: rest) hpfx (patB.length - 1)
            (by omega))
        have hdrop : (c :: rest).drop patB.length = rest.drop (patB.length - 1) := by
          conv_lhs => rw [show patB.length = (patB.length - 1) + 1 from by omega]
          rw [List.drop_succ_cons]
        have hk := noWbMatch_drop ci patA (c :: rest) false patB.length hBlen hlen hyp
        rw [hdrop] at hk
        apply scan_through ci patA replB false _ hCG
        rw [hend]
        apply ih (rest.drop (patB.length - 1)) (by simp at hs; simp [List.length_drop]; omega)
        exact hk
      · rw [if_neg hmatch]
        rw [noWbMatch] at hyp ⊢
        simp only [Bool.and_eq_true] at hyp ⊢
        constructor
        · have horig : wbMatchAt ci patA pw (c :: rest) = false := by simpa using hyp.1
          have := wbMatchAt_transport_false ci patA patB replB hrne hC4 hD2 hAne
            c rest pw horig
          simp [this]
        · exact ih rest (by simp at hs; omega) (isWordChar c) hyp.2

theorem noWbMatch_out (ci : Bool) (patB replB : List Char)
    (hBne : patB ≠ []) (hrne : replB ≠ [])
    (hC3 : isWordChar (patB.headD ' ') = true)
    (hC4 : isWordChar (replB.headD ' ') = isWordChar (patB.headD ' '))
    (hC5 : isWordChar (replB.getD (replB.length - 1) ' ') =
           isWordChar (patB.getD (patB.length - 1) ' '))
    (hD2 : ∀ m, m < patB.length → 1 ≤ m → tailCompat ci (patB.drop m) replB = false)
    (hCG : noMatchThrough ci patB false replB = true) :
    ∀ (n : Nat) (s : List Char), s.length ≤ n → ∀ (pw : Bool),
      noWbMatch ci patB pw (wbGo ci patB replB pw s) = true := by
  intro n
  induction n with
  | zero =>
    intro s hs pw
    have hnil : s = [] := List.eq_nil_of_length_eq_zero (by omega)
    subst hnil
    simp [wbGo, noWbMatch]
  | succ n ih =>
    intro s hs pw
    cases s with
    | nil => simp [wbGo, noWbMatch]
    | cons c rest =>
      rw [wbGo]
      by_cases hmatch : wbMatchAt ci patB pw (c :: rest) = true
      · rw [if_pos hmatch]
        obtain ⟨hne, hpfx, hbnd⟩ := wbMatchAt_parts ci patB pw c rest hmatch
        have hpwf : pw = false := match_pw_false ci patB pw c rest hC3 hmatch
        subst hpwf
        have hlen : patB.length ≤ (c :: rest).length := cipfx_length ci patB _ hpfx
        have hBlen : 1 ≤ patB.length := by
          cases patB with
          | nil => exact absurd rfl hBne
          | cons b bs => simp
        have hend : endW false replB =
            isWordChar ((c :: rest).getD (patB.length - 1) ' ') := by
          rw [endW_eq_getD replB hrne false, hC5]
          exact chEq_word ci _ _ (cipfx_getD ci patB (c :: rest) hpfx (patB.length - 1)
            (by omega))
        apply scan_through ci patB replB false _ hCG
        rw [hend]
        apply ih (rest.drop (patB.length - 1))
        simp at hs
        simp [List.length_drop]
        omega
      · rw [if_neg hmatch]
        rw [noWbMatch]
        simp only [Bool.and_eq_true]
        constructor
        · have horig : wbMatchAt ci patB pw (c :: rest) = false := by simpa using hmatch
          have := wbMatchAt_transport_false ci patB patB replB hrne hC4 hD2 hBne
            c rest pw horig
          simp [this]
        · exact ih rest (by simp at hs; omega) (isWordChar c)

theorem rule1_idem (s : List Char) : rule1 (rule1 s) = rule1 s := by
  unfold rule1 wbSub
  exact noWbMatch_id true _ _ _ false
    (noWbMatch_out true "last dose".data "most recent dose".data
      (by decide) (by decide) (by decide) (by decide) (by decide) (by decide) (by decide)
      s.length s le_rfl false)

theorem rule6_idem (s : List Char) : rule6 (rule6 s) = rule6 s := by
  unfold rule6 wbSub
  set s1 := wbGo false "WHITE".data "White".data false s with hs1
  set s2 := wbGo false "BLACK OR AFRICAN AMERICAN".data
    "Black or African American".data false s1 with hs2
  set s3 := wbGo false "ASIAN".data "Asian".data false s2 with hs3
  set s4 := wbGo false "NOT HISPANIC OR LATINO".data
    "Not Hispanic or Latino".data false s3 with hs4
  set s5 := wbGo false "HISPANIC OR LATINO".data
    "Hispanic or Latino".data false s4 with hs5
  have h1a : noWbMatch false "WHITE".data false s1 = true := by
    rw [hs1]
    exact noWbMatch_out false "WHITE".data "White".data
      (by decide) (by decide) (by decide) (by decide) (by decide) (by decide) (by decide)
      s.length s le_rfl false
  have h1b : noWbMatch false "WHITE".data false s2 = true := by
    rw [hs2]
    exact noWbMatch_preserved false "WHITE".data "BLACK OR AFRICAN AMERICAN".data
      "Black or African American".data
      (by decide) (by decide) (by decide) (by decide) (by decide) (by decide) (by decide)
      (by decide) s1.length s1 le_rfl false h1a
  have h1c : noWbMatch false "WHITE".data false s3 = true := by
    rw [hs3]
    exact noWbMatch_preserved false "WHITE".data "ASIAN".data "Asian".data
      (by decide) (by decide) (by decide) (by decide) (by decide) (by decide) (by decide)
      (by decide) s2.length s2 le_rfl false h1b
  have h1d : noWbMatch false "WHITE".data false s4 = true := by
    rw [hs4]
    exact noWbMatch_preserved false "WHITE".data "NOT HISPANIC OR LATINO".data
      "Not Hispanic or Latino".data
      (by decide) (by decide) (by decide) (by decide) (by decide) (by decide) (by decide)
      (by decide) s3.length s3 le_rfl false h1c
  have h1e : noWbMatch false "WHITE".data false s5 = true := by
    rw [hs5]
    exact noWbMatch_preserved false "WHITE".data "HISPANIC OR LATINO".data
      "Hispanic or Latino".data
      (by decide) (by decide) (by decide) (by decide) (by decide) (by decide) (by decide)
      (by decide) s4.length s4 le_rfl false h1d
  have h2a : noWbMatch false "BLACK OR AFRICAN AMERICAN".data false s2 = true := by
    rw [hs2]
    exact noWbMatch_out false "BLACK OR AFRICAN AMERICAN".data
      "Black or African American".data
      (by decide) (by decide) (by decide) (by decide) (by decide) (by decide) (by decide)
      s1.length s1 le_rfl false
  have h2b : noWbMatch false "BLACK OR AFRICAN AMERICAN".data false s3 = true := by
    rw [hs3]
    exact noWbMatch_preserved false "BLACK OR AFRICAN AMERICAN".data "ASIAN".data
      "Asian".data
      (by decide) (by decide) (by decide) (by decide) (by decide) (by decide) (by decide)
      (by decide) s2.length s2 le_rfl false h2a
  have h2c : noWbMatch false "BLACK OR AFRICAN AMERICAN".data false s4 = true := by
    rw [hs4]
    exact noWbMatch_preserved false "BLACK OR AFRICAN AMERICAN".data
      "NOT HISPANIC OR LATINO".data "Not Hispanic or Latino".data
      (by decide) (by decide) (by decide) (by decide) (by decide) (by decide) (by decide)
      (by decide) s3.length s3 le_rfl false h2b
  have h2d : noWbMatch false "BLACK OR AFRICAN AMERICAN".data false s5 = true := by
    rw [hs5]
    exact noWbMatch_preserved false "BLACK OR AFRICAN AMERICAN".data
      "HISPANIC OR LATINO".data "Hispanic or Latino".data
      (by decide) (by decide) (by decide) (by decide) (by decide) (by decide) (by decide)
      (by decide) s4.length s4 le_rfl false h2c
  have h3a : noWbMatch false "ASIAN".data false s3 = true := by
    rw [hs3]
    exact noWbMatch_out false "ASIAN".data "Asian".data
      (by decide) (by decide) (by decide) (by decide) (by decide) (by decide) (by decide)
      s2.length s2 le_rfl false
  have h3b : noWbMatch false "ASIAN".data false s4 = true := by
    rw [hs4]
    exact noWbMatch_preserved false "ASIAN".data "NOT HISPANIC OR LATINO".data
      "Not Hispanic or Latino".data
      (by decide) (by decide) (by decide) (by decide) (by decide) (by decide) (by decide)
      (by decide) s3.length s3 le_rfl false h3a
  have h3c : noWbMatch false "ASIAN".data false s5 = true := by
    rw [hs5]
    exact noWbMatch_preserved false "ASIAN".data "HISPANIC OR LATINO".data
      "Hispanic or Latino".data
      (by decide) (by decide) (by decide) (by decide) (by decide) (by decide) (by decide)
      (by decide) s4.length s4 le_rfl false h3b
  have h4a : noWbMatch false "NOT HISPANIC OR LATINO".data false s4 = true := by
    rw [hs4]
    exact noWbMatch_out false "NOT HISPANIC OR LATINO".data
      "Not Hispanic or Latino".data
      (by decide) (by decide) (by decide) (by decide) (by decide) (by decide) (by decide)
      s3.length s3 le_rfl false
  have h4b : noWbMatch false "NOT HISPANIC OR LATINO".data false s5 = true := by
    rw [hs5]
    exact noWbMatch_preserved false "NOT HISPANIC OR LATINO".data
      "HISPANIC OR LATINO".data "Hispanic or Latino".data
      (by decide) (by decide) (by decide) (by decide) (by decide) (by decide) (by decide)
      (by decide) s4.length s4 le_rfl false h4a
  have h5a : noWbMatch false "HISPANIC OR LATINO".data false s5 = true := by
    rw [hs5]
    exact noWbMatch_out false "HISPANIC OR LATINO".data "Hispanic or Latino".data
      (by decide) (by decide) (by decide) (by decide) (by decide) (by decide) (by decide)
      s4.length s4 le_rfl false
  rw [noWbMatch_id false "WHITE".data "White".data s5 false h1e]
  rw [noWbMatch_id false "BLACK OR AFRICAN AMERICAN".data
    "Black or African American".data s5 false h2d]
  rw [noWbMatch_id false "ASIAN".data "Asian".data s5 false h3c]
  rw [noWbMatch_id false "NOT HISPANIC OR LATINO".data
    "Not Hispanic or Latino".data s5 false h4b]
  rw [noWbMatch_id false "HISPANIC OR LATINO".data
    "Hispanic or Latino".data s5 false h5a]

theorem toLower_dot_iff (c : Char) : c.toLower = '.' ↔ c = '.' := by
  constructor
  · intro h
    exact toLower_eq_low c '.' h (by decide)
  · intro h
    rw [h]
    decide

theorem lowEq_refl (s : List Char) : lowEq s s = true := by
  induction s with
  | nil => rfl
  | cons c cs ih => simp [lowEq, ih]

theorem lowEq_length (s t : List Char) (h : lowEq s t = true) : s.length = t.length := by
  induction s generalizing t with
  | nil => cases t with
    | nil => rfl
    | cons b bs => simp [lowEq] at h
  | cons a as ih =>
    cases t with
    | nil => simp [lowEq] at h
    | cons b bs =>
      simp only [lowEq, Bool.and_eq_true] at h
      simp [ih bs h.2]

theorem lowEq_append (a b c d : List Char) (h1 : lowEq a c = true) (h2 : lowEq b d = true) :
    lowEq (a ++ b) (c ++ d) = true := by
  induction a generalizing c with
  | nil =>
    cases c with
    | nil => simpa using h2
    | cons x xs => simp [lowEq] at h1
  | cons x xs ih =>
    cases c with
    | nil => simp [lowEq] at h1
    | cons y ys =>
      simp only [lowEq, Bool.and_eq_true] at h1
      simp only [List.cons_append, lowEq, Bool.and_eq_true]
      exact ⟨h1.1, ih ys h1.2⟩

theorem lowEq_ciPrefix (m : List Char) (s t : List Char) (h : lowEq s t = true) :
    ciPrefix m s = ciPrefix m t := by
  induction m generalizing s t with
  | nil => rfl
  | cons p ps ih =>
    cases s with
    | nil =>
      cases t with
      | nil => rfl
      | cons b bs => simp [lowEq] at h
    | cons a as =>
      cases t with
      | nil => simp [lowEq] at h
      | cons b bs =>
        simp only [lowEq, Bool.and_eq_true] at h
        have he : a.toLower = b.toLower := by simpa using h.1
        simp only [ciPrefix]
        rw [ih as bs h.2, he]

theorem lowEq_drop (s t : List Char) (h : lowEq s t = true) (n : Nat) :
    lowEq (s.drop n) (t.drop n) = true := by
  induction n generalizing s t with
  | zero => simpa using h
  | succ k ih =>
    cases s with
    | nil =>
      cases t with
      | nil => rfl
      | cons b bs => simp [lowEq] at h
    | cons a as =>
      cases t with
      | nil => simp [lowEq] at h
      | cons b bs =>
        simp only [lowEq, Bool.and_eq_true] at h
        simpa using ih as bs h.2

theorem lowEq_isEmpty (s t : List Char) (h : lowEq s t = true) :
    s.isEmpty = t.isEmpty := by
  cases s with
  | nil =>
    cases t with
    | nil => rfl
    | cons b bs => simp [lowEq] at h
  | cons a as =>
    cases t with
    | nil => simp [lowEq] at h
    | cons b bs => rfl

theorem lowEq_dotEq (a b : Char) (h : a.toLower = b.toLower) : (a = '.') = (b = '.') := by
  by_cases ha : a = '.'
  · subst ha
    have hb : b = '.' := (toLower_dot_iff b).mp (by rw [← h]; decide)
    simp [hb]
  · have hb : ¬ b = '.' := by
      intro hc
      subst hc
      exact ha ((toLower_dot_iff a).mp (by rw [h]; decide))
    simp [ha, hb]

theorem lowEq_headDot (s t : List Char) (h : lowEq s t = true) :
    decide (s.head? ≠ some '.') = decide (t.head? ≠ some '.') := by
  cases s with
  | nil =>
    cases t with
    | nil => rfl
    | cons b bs => simp [lowEq] at h
  | cons a as =>
    cases t with
    | nil => simp [lowEq] at h
    | cons b bs =>
      simp only [lowEq, Bool.and_eq_true] at h
      have he : a.toLower = b.toLower := by simpa using h.1
      have hd := lowEq_dotEq a b he
      simp [hd]

theorem lowEq_takeWhileDot (s t : List Char) (h : lowEq s t = true) :
    lowEq (s.takeWhile (fun x => x ≠ '.')) (t.takeWhile (fun x => x ≠ '.')) = true := by
  induction s generalizing t with
  | nil =>
    cases t with
    | nil => rfl
    | cons b bs => simp [lowEq] at h
  | cons a as ih =>
    cases t with
    | nil => simp [lowEq] at h
    | cons b bs =>
      simp only [lowEq, Bool.and_eq_true] at h
      have he : a.toLower = b.toLower := by simpa using h.1
      have hdot := lowEq_dotEq a b he
      rw [List.takeWhile_cons, List.takeWhile_cons]
      by_cases ha : a = '.'
      · have hb : b = '.' := hdot ▸ ha
        rw [show (decide (a ≠ '.')) = false by simp [ha],
            show (decide (b ≠ '.')) = false by simp [hb]]
        rfl
      · have hb : ¬ b = '.' := hdot ▸ ha
        rw [show (decide (a ≠ '.')) = true by simp [ha],
            show (decide (b ≠ '.')) = true by simp [hb]]
        simp only [if_true, lowEq, Bool.and_eq_true]
        exact ⟨by simpa using he, ih bs h.2⟩

theorem lowEq_dropWhileDot (s t : List Char) (h : lowEq s t = true) :
    lowEq (s.dropWhile (fun x => x ≠ '.')) (t.dropWhile (fun x => x ≠ '.')) = true := by
  induction s generalizing t with
  | nil =>
    cases t with
    | nil => rfl
    | cons b bs => simp [lowEq] at h
  | cons a as ih =>
    cases t with
    | nil => simp [lowEq] at h
    | cons b bs =>
      simp only [lowEq, Bool.and_eq_true] at h
      have he : a.toLower = b.toLower := by simpa using h.1
      have hdot := lowEq_dotEq a b he
      rw [List.dropWhile_cons, List.dropWhile_cons]
      by_cases ha : a = '.'
      · have hb : b = '.' := hdot ▸ ha
        rw [show (decide (a ≠ '.')) = false by simp [ha],
            show (decide (b ≠ '.')) = false by simp [hb]]
        simp only [Bool.false_eq_true, if_false, lowEq, Bool.and_eq_true]
        exact ⟨by simpa using he, h.2⟩
      · have hb : ¬ b = '.' := hdot ▸ ha
        rw [show (decide (a ≠ '.')) = true by simp [ha],
            show (decide (b ≠ '.')) = true by simp [hb]]
        simp only [if_true]
        exact ih bs h.2

theorem ciPrefix_cipfx (m s : List Char) : ciPrefix m s = cipfx true m s := rfl

theorem ciPrefix_take_append (m : List Char) :
    ∀ (s X : List Char), ciPrefix m s = true →
      ciPrefix m (s.take m.length ++ X) = true := by
  induction m with
  | nil => intro s X h; rfl
  | cons p ps ih =>
    intro s X h
    cases s with
    | nil => exact absurd h (by simp [ciPrefix])
    | cons c cs =>
      simp only [ciPrefix, Bool.and_eq_true] at h
      simp only [List.length_cons, List.take_succ_cons, List.cons_append, ciPrefix,
        Bool.and_eq_true]
      exact ⟨h.1, ih cs X h.2⟩

theorem dropWhileDot_lt (l : List Char) (hl : l.isEmpty = false) (hd : l.head? ≠ some '.') :
    (l.dropWhile (fun x => x ≠ '.')).length < l.length := by
  cases l with
  | nil => simp at hl
  | cons a as =>
    have ha : ¬ (a = '.') := fun hcon => hd (by rw [hcon]; rfl)
    have h2 : (as.dropWhile (fun x => !decide (x = '.'))).length ≤ as.length :=
      (List.dropWhile_suffix _).length_le
    simp [List.dropWhile, ha]
    omega

theorem takeWhileDot_ne_nil (l : List Char) (hl : l.isEmpty = false)
    (hd : l.head? ≠ some '.') : l.takeWhile (fun x => x ≠ '.') ≠ [] := by
  cases l with
  | nil => simp at hl
  | cons a as =>
    have ha : ¬ (a = '.') := fun hcon => hd (by rw [hcon]; rfl)
    rw [List.takeWhile_cons, show (decide (a ≠ '.')) = true by simp [ha]]
    simp

theorem dropWhileDot_head (l : List Char) :
    l.dropWhile (fun x => x ≠ '.') = [] ∨
      ∃ z, l.dropWhile (fun x => x ≠ '.') = '.' :: z := by
  induction l with
  | nil => left; rfl
  | cons a as ih =>
    by_cases ha : a = '.'
    · right
      refine ⟨as, ?_⟩
      rw [List.dropWhile_cons, show (decide (a ≠ '.')) = false by simp [ha]]
      simp [ha]
    · rw [List.dropWhile_cons, show (decide (a ≠ '.')) = true by simp [ha]]
      simpa using ih

theorem takeWhileDot_append (a b : List Char) (hfree : ∀ x ∈ a, x ≠ '.')
    (hb : b = [] ∨ ∃ z, b = '.' :: z) :
    (a ++ b).takeWhile (fun x => x ≠ '.') = a ∧
    (a ++ b).dropWhile (fun x => x ≠ '.') = b := by
  induction a with
  | nil =>
    simp only [List.nil_append]
    rcases hb with rfl | ⟨z, rfl⟩
    · exact ⟨rfl, rfl⟩
    · constructor
      · rw [List.takeWhile_cons, show (decide (('.' : Char) ≠ '.')) = false by simp]
        rfl
      · rw [List.dropWhile_cons, show (decide (('.' : Char) ≠ '.')) = false by simp]
        rfl
  | cons x xs ih =>
    have hx := hfree x (by simp)
    have ih2 := ih (fun y hy => hfree y (by simp [hy]))
    constructor
    · rw [List.cons_append, List.takeWhile_cons,
        show (decide (x ≠ '.')) = true by simp [hx]]
      simp only [if_true]
      rw [ih2.1]
    · rw [List.cons_append, List.dropWhile_cons,
        show (decide (x ≠ '.')) = true by simp [hx]]
      simp only [if_true]
      exact ih2.2

theorem map_toLower_idem (l : List Char) :
    (l.map Char.toLower).map Char.toLower = l.map Char.toLower := by
  rw [List.map_map]
  apply List.map_congr_left
  intro x hx
  exact toLower_idem x

theorem lowEq_lamCond (marker s t : List Char) (h : lowEq s t = true) :
    (ciPrefix marker s && !(s.drop marker.length).isEmpty &&
       decide ((s.drop marker.length).head? ≠ some '.')) =
    (ciPrefix marker t && !(t.drop marker.length).isEmpty &&
       decide ((t.drop marker.length).head? ≠ some '.')) := by
  rw [lowEq_ciPrefix marker s t h,
      lowEq_isEmpty _ _ (lowEq_drop s t h marker.length),
      lowEq_headDot _ _ (lowEq_drop s t h marker.length)]

theorem lamGo_lowEq (marker : List Char) :
    ∀ (n : Nat) (s : List Char), s.length ≤ n → lowEq (lamGo marker s) s = true := by
  intro n
  induction n with
  | zero =>
    intro s hs
    have hnil : s = [] := List.eq_nil_of_length_eq_zero (by omega)
    subst hnil
    rw [lamGo]
    rfl
  | succ n ih =>
    intro s hs
    cases s with
    | nil =>
      rw [lamGo]
      rfl
    | cons c rest =>
      rw [lamGo]
      by_cases hcond : (ciPrefix marker (c :: rest) &&
          !((c :: rest).drop marker.length).isEmpty &&
          decide (((c :: rest).drop marker.length).head? ≠ some '.')) = true
      · rw [dif_pos hcond]
        simp only [Bool.and_eq_true, decide_eq_true_eq] at hcond
        obtain ⟨⟨hciP, hne⟩, hdot⟩ := hcond
        have hsplit : (c :: rest) = ((c :: rest).take marker.length ++
            ((c :: rest).drop marker.length).takeWhile (fun x => x ≠ '.')) ++
             ((c :: rest).drop marker.length).dropWhile (fun x => x ≠ '.') := by
          rw [List.append_assoc, List.takeWhile_append_dropWhile, List.take_append_drop]
        conv_lhs =>
          arg 2
          rw [hsplit]
        apply lowEq_append
        · apply lowEq_append
          · exact lowEq_refl _
          · have hmaplow : ∀ (l : List Char), lowEq (l.map Char.toLower) l = true := by
              intro l
              induction l with
              | nil => rfl
              | cons x xs ihx => simp [lowEq, toLower_idem, ihx]
            exact hmaplow _
        · apply ih
          have hlt := dropWhileDot_lt ((c :: rest).drop marker.length)
            (by simpa using hne) hdot
          have hdl : ((c :: rest).drop marker.length).length ≤ (c :: rest).length := by
            simp [List.length_drop]
          simp only [List.length_cons] at hdl
          simp at hs
          omega
      · rw [dif_neg hcond]
        simp only [lowEq, Bool.and_eq_true]
        constructor
        · simp
        · exact ih rest (by simpa using hs)

theorem lamGo_pos (marker : List Char) (s : List Char) (hne : s ≠ [])
    (hcond : (ciPrefix marker s && !(s.drop marker.length).isEmpty &&
        decide ((s.drop marker.length).head? ≠ some '.')) = true) :
    lamGo marker s = s.take marker.length ++
      ((s.drop marker.length).takeWhile (fun x => x ≠ '.')).map Char.toLower ++
      lamGo marker ((s.drop marker.length).dropWhile (fun x => x ≠ '.')) := by
  cases s with
  | nil => exact absurd rfl hne
  | cons c rest => rw [lamGo, dif_pos hcond]

theorem lamGo_neg (marker : List Char) (c : Char) (rest : List Char)
    (hcond : (ciPrefix marker (c :: rest) &&
        !((c :: rest).drop marker.length).isEmpty &&
        decide (((c :: rest).drop marker.length).head? ≠ some '.')) = false) :
    lamGo marker (c :: rest) = c :: lamGo marker rest := by
  rw [lamGo, dif_neg (by rw [hcond]; simp)]

theorem lamGo_idem (marker : List Char) (hmne : marker ≠ [])
    (hm0 : (marker.headD ' ').toLower ≠ '.') :
    ∀ (n : Nat) (s : List Char), s.length ≤ n →
      lamGo marker (lamGo marker s) = lamGo marker s := by
  intro n
  induction n with
  | zero =>
    intro s hs
    have hnil : s = [] := List.eq_nil_of_length_eq_zero (by omega)
    subst hnil
    have h0 : lamGo marker [] = [] := by rw [lamGo]
    rw [h0, h0]
  | succ n ih =>
    intro s hs
    cases s with
    | nil =>
      have h0 : lamGo marker [] = [] := by rw [lamGo]
      rw [h0, h0]
    | cons c rest =>
      by_cases hcond : (ciPrefix marker (c :: rest) &&
          !((c :: rest).drop marker.length).isEmpty &&
          decide (((c :: rest).drop marker.length).head? ≠ some '.')) = true
      · rw [lamGo_pos marker (c :: rest) (by simp) hcond]
        simp only [Bool.and_eq_true, decide_eq_true_eq] at hcond
        obtain ⟨⟨hciP, hne⟩, hdot⟩ := hcond
        set s0 := c :: rest with hs0
        set sp := s0.take marker.length with hsp
        set dr := s0.drop marker.length with hdr
        set mid := dr.takeWhile (fun x => x ≠ '.') with hmid
        set rst := dr.dropWhile (fun x => x ≠ '.') with hrst
        set mp := mid.map Char.toLower with hmp
        set R := lamGo marker rst with hR
        have hmlen : 1 ≤ marker.length := by
          cases marker with
          | nil => exact absurd rfl hmne
          | cons a l => simp
        have hslen : marker.length ≤ s0.length := by
          rw [ciPrefix_cipfx] at hciP
          exact cipfx_length true marker s0 hciP
        have hspfull : sp.length = marker.length := by
          rw [hsp, List.length_take]
          omega
        have hassoc : sp ++ mp ++ R = sp ++ (mp ++ R) := List.append_assoc sp mp R
        rw [hassoc]
        have hmidne : mid ≠ [] := takeWhileDot_ne_nil dr (by simpa using hne) hdot
        have hmpne : mp ≠ [] := by
          rw [hmp]
          simpa using hmidne
        have hmpfree : ∀ x ∈ mp, x ≠ '.' := by
          intro x hx
          rw [hmp] at hx
          obtain ⟨y, hy, rfl⟩ := List.mem_map.mp hx
          rw [hmid] at hy
          have hyd := List.mem_takeWhile_imp hy
          have hyne : y ≠ '.' := by simpa using hyd
          intro hcon
          exact hyne ((toLower_dot_iff y).mp hcon)
        have hRshape : R = [] ∨ ∃ z, R = '.' :: z := by
          rcases dropWhileDot_head dr with h0 | ⟨z, hz⟩
          · left
            rw [hR, hrst, h0]
            rw [lamGo]
          · right
            rw [hR, hrst, hz]
            refine ⟨lamGo marker z, ?_⟩
            apply lamGo_neg
            cases marker with
            | nil => exact absurd rfl hmne
            | cons mk0 mkr =>
              simp only [List.headD_cons] at hm0
              have : ciPrefix (mk0 :: mkr) ('.' :: z) = false := by
                simp only [ciPrefix]
                rw [show (decide (mk0.toLower = ('.' : Char).toLower)) = false by
                  simp
                  intro hcon
                  exact hm0 (hcon.trans (by decide))]
                rw [Bool.false_and]
              rw [this, Bool.false_and, Bool.false_and]
        have htw := takeWhileDot_append mp R hmpfree hRshape
        have hop : ciPrefix marker (sp ++ (mp ++ R)) = true := by
          rw [hsp]
          exact ciPrefix_take_append marker s0 (mp ++ R) hciP
        have hdrop2 : (sp ++ (mp ++ R)).drop marker.length = mp ++ R := by
          rw [← hspfull]
          exact List.drop_left sp (mp ++ R)
        have htake2 : (sp ++ (mp ++ R)).take marker.length = sp := by
          rw [← hspfull]
          exact List.take_left sp (mp ++ R)
        have hcond2 : (ciPrefix marker (sp ++ (mp ++ R)) &&
            !((sp ++ (mp ++ R)).drop marker.length).isEmpty &&
            decide (((sp ++ (mp ++ R)).drop marker.length).head? ≠ some '.')) = true := by
          rw [hop, hdrop2]
          obtain ⟨x, xs, hmpc⟩ := List.exists_cons_of_ne_nil hmpne
          have hx : x ≠ '.' := hmpfree x (by rw [hmpc]; simp)
          rw [hmpc]
          simp [hx]
        rw [lamGo_pos marker (sp ++ (mp ++ R))
          (by
            intro hcon
            exact hmpne (List.append_eq_nil.mp (List.append_eq_nil.mp hcon).2).1) hcond2]
        rw [htake2, hdrop2, htw.1, htw.2]
        rw [hmp, map_toLower_idem, ← hmp]
        have hRlen : rst.length ≤ n := by
          have hlt := dropWhileDot_lt dr (by simpa using hne) hdot
          have hdl : dr.length ≤ s0.length := by
            rw [hdr]
            simp [List.length_drop]
          rw [← hrst] at hlt
          have hs0l : s0.length = rest.length + 1 := by rw [hs0]; simp
          omega
        have hlam : lamGo marker R = R := by
          rw [hR]
          exact ih rst hRlen
        rw [hlam]
        rw [List.append_assoc]
      · have hcondF : (ciPrefix marker (c :: rest) &&
            !((c :: rest).drop marker.length).isEmpty &&
            decide (((c :: rest).drop marker.length).head? ≠ some '.')) = false := by
          simpa using hcond
        rw [lamGo_neg marker c rest hcondF]
        have hle : lowEq (c :: lamGo marker rest) (c :: rest) = true := by
          simp only [lowEq, Bool.and_eq_true]
          exact ⟨by simp, lamGo_lowEq marker rest.length rest le_rfl⟩
        have hcondF2 : (ciPrefix marker (c :: lamGo marker rest) &&
            !((c :: lamGo marker rest).drop marker.length).isEmpty &&
            decide (((c :: lamGo marker rest).drop marker.length).head? ≠ some '.')) = false := by
          rw [lowEq_lamCond marker _ _ hle]
          exact hcondF
        rw [lamGo_neg marker c (lamGo marker rest) hcondF2]
        congr 1
        exact ih rest (by simpa using hs)

theorem rule3_idem (s : List Char) : rule3 (rule3 s) = rule3 s :=
  lamGo_idem "action taken with study drug was ".data (by decide) (by decide)
    s.length s le_rfl

theorem rule4_idem (s : List Char) : rule4 (rule4 s) = rule4 s :=
  lamGo_idem "assessed the event as ".data (by decide) (by decide)
    s.length s le_rfl

theorem noR5_id : ∀ (s : List Char), noR5 s = true → r5Go s = s := by
  intro s
  induction s with
  | nil => intro h; rw [r5Go]
  | cons c rest ih =>
    intro h
    rw [noR5] at h
    simp only [Bool.and_eq_true] at h
    rw [r5Go]
    by_cases hd : c.isDigit = true
    · have hci : ciPrefix "-years-old".data (rest.dropWhile Char.isDigit) = false := by
        have := h.1
        rw [hd] at this
        simpa using this
      rw [if_pos hd, if_neg (by simp [hci]), ih h.2]
    · rw [if_neg hd, ih h.2]

theorem chEq_digit (a b : Char) (h : a.toLower = b.toLower) : a.isDigit = b.isDigit := by
  rw [← digit_toLower a, ← digit_toLower b, h]

theorem ys_frag (X : List Char) :
    ciPrefix "-years-old".data ("-year-old".data ++ X) = false := by
  cases hq : ciPrefix "-years-old".data ("-year-old".data ++ X) with
  | false => rfl
  | true =>
    exfalso
    have h2 : cipfx true "-years-old".data ("-year-old".data ++ X) = true := by
      rw [← ciPrefix_cipfx]
      exact hq
    have h3 := cipfx_take true "-years-old".data "-year-old".data X h2
    rw [show cipfx true ("-years-old".data.take "-year-old".data.length)
      "-year-old".data = false by decide] at h3
    exact absurd h3 (by simp)

theorem dropWhile_all_append (p : Char → Bool) (a b : List Char)
    (h : ∀ x ∈ a, p x = true) : (a ++ b).dropWhile p = b.dropWhile p := by
  induction a with
  | nil => rfl
  | cons x xs ih =>
    rw [List.cons_append, List.dropWhile_cons, if_pos (h x (by simp))]
    exact ih (fun y hy => h y (by simp [hy]))

theorem t5b_transport :
    ∀ (n : Nat) (x : List Char), x.length ≤ n → ∀ m, 1 ≤ m →
      ciPrefix ("-years-old".data.drop m) (r5Go x) = true →
      ciPrefix ("-years-old".data.drop m) x = true := by
  intro n
  induction n with
  | zero =>
    intro x hx m hm h
    have hnil : x = [] := List.eq_nil_of_length_eq_zero (by omega)
    subst hnil
    rw [r5Go] at h
    exact h
  | succ n ih =>
    intro x hx m hm h
    by_cases hm10 : 10 ≤ m
    · rw [show "-years-old".data.drop m = [] from
        List.drop_eq_nil_of_le (by rw [show "-years-old".data.length = 10 by decide]; omega)]
      rfl
    · have hmlt : m < 10 := by omega
      have hdropm : "-years-old".data.drop m =
          "-years-old".data.getD m ' ' :: "-years-old".data.drop (m + 1) := by
        rw [List.drop_eq_getElem_cons (by rw [show "-years-old".data.length = 10 by decide]; omega)]
        rw [List.getD_eq_getElem _ ' ' (by rw [show "-years-old".data.length = 10 by decide]; omega)]
      cases x with
      | nil =>
        rw [r5Go] at h
        exact h
      | cons c rest =>
        rw [r5Go] at h
        by_cases hd : c.isDigit = true
        · rw [if_pos hd] at h
          by_cases hci : ciPrefix "-years-old".data (rest.dropWhile Char.isDigit) = true
          · rw [if_pos hci] at h
            exfalso
            rw [List.cons_append] at h
            rw [hdropm] at h
            simp only [ciPrefix, Bool.and_eq_true] at h
            have hdig := chEq_digit _ c (by simpa using h.1)
            rw [hd] at hdig
            interval_cases m <;> exact absurd hdig (by decide)
          · rw [if_neg hci] at h
            exfalso
            rw [hdropm] at h
            simp only [ciPrefix, Bool.and_eq_true] at h
            have hdig := chEq_digit _ c (by simpa using h.1)
            rw [hd] at hdig
            interval_cases m <;> exact absurd hdig (by decide)
        · rw [if_neg hd] at h
          rw [hdropm] at h ⊢
          simp only [ciPrefix, Bool.and_eq_true] at h ⊢
          refine ⟨h.1, ?_⟩
          by_cases hm9 : m + 1 ≤ 9
          · exact ih rest (by simp at hx; omega) (m + 1) (by omega) h.2
          · rw [show "-years-old".data.drop (m + 1) = [] from
              List.drop_eq_nil_of_le (by rw [show "-years-old".data.length = 10 by decide]; omega)]
            rfl

theorem t5_transport :
    ∀ (n : Nat) (x : List Char), x.length ≤ n →
      ciPrefix "-years-old".data ((r5Go x).dropWhile Char.isDigit) = true →
      ciPrefix "-years-old".data (x.dropWhile Char.isDigit) = true := by
  intro n
  induction n with
  | zero =>
    intro x hx h
    have hnil : x = [] := List.eq_nil_of_length_eq_zero (by omega)
    subst hnil
    rw [r5Go] at h
    exact h
  | succ n ih =>
    intro x hx h
    cases x with
    | nil =>
      rw [r5Go] at h
      exact h
    | cons c rest =>
      rw [r5Go] at h
      by_cases hd : c.isDigit = true
      · rw [if_pos hd] at h
        by_cases hci : ciPrefix "-years-old".data (rest.dropWhile Char.isDigit) = true
        · rw [if_pos hci] at h
          exfalso
          rw [List.append_assoc] at h
          rw [dropWhile_all_append Char.isDigit
            (c :: rest.takeWhile Char.isDigit)
            ("-year-old".data ++ r5Go ((rest.dropWhile Char.isDigit).drop 10))
            (by
              intro y hy
              rcases List.mem_cons.mp hy with rfl | hy2
              · exact hd
              · exact List.mem_takeWhile_imp hy2)] at h
          rw [show ("-year-old".data ++
              r5Go ((rest.dropWhile Char.isDigit).drop 10)).dropWhile Char.isDigit =
              "-year-old".data ++ r5Go ((rest.dropWhile Char.isDigit).drop 10) by
            rw [show ("-year-old".data : List Char) = '-' :: "year-old".data by decide]
            rw [List.cons_append, List.dropWhile_cons, if_neg (by decide)]] at h
          rw [ys_frag] at h
          exact absurd h (by simp)
        · rw [if_neg hci] at h
          rw [List.dropWhile_cons, if_pos hd] at h ⊢
          exact ih rest (by simp at hx; omega) h
      · rw [if_neg hd] at h
        rw [List.dropWhile_cons, if_neg hd] at h ⊢
        rw [show ("-years-old".data : List Char) = '-' :: "years-old".data by decide] at h ⊢
        simp only [ciPrefix, Bool.and_eq_true] at h ⊢
        refine ⟨h.1, ?_⟩
        exact t5b_transport rest.length rest le_rfl 1 (by omega) h.2

theorem noR5_nondigit_run (a : List Char) (R : List Char)
    (ha : ∀ x ∈ a, x.isDigit = false) (hR : noR5 R = true) : noR5 (a ++ R) = true := by
  induction a with
  | nil => simpa using hR
  | cons x xs ih =>
    rw [List.cons_append, noR5]
    simp only [Bool.and_eq_true]
    constructor
    · rw [ha x (by simp)]
      simp
    · exact ih (fun y hy => ha y (by simp [hy]))

theorem noR5_digit_run (run : List Char) (T : List Char)
    (hrun : ∀ x ∈ run, x.isDigit = true)
    (hT : noR5 T = true)
    (hTf : ciPrefix "-years-old".data (T.dropWhile Char.isDigit) = false) :
    noR5 (run ++ T) = true := by
  induction run with
  | nil => simpa using hT
  | cons x xs ih =>
    rw [List.cons_append, noR5]
    simp only [Bool.and_eq_true]
    constructor
    · rw [dropWhile_all_append Char.isDigit xs T (fun y hy => hrun y (by simp [hy]))]
      rw [hTf]
      simp
    · exact ih (fun y hy => hrun y (by simp [hy]))

theorem noR5_out :
    ∀ (n : Nat) (s : List Char), s.length ≤ n → noR5 (r5Go s) = true := by
  intro n
  induction n with
  | zero =>
    intro s hs
    have hnil : s = [] := List.eq_nil_of_length_eq_zero (by omega)
    subst hnil
    rw [r5Go]
    rfl
  | succ n ih =>
    intro s hs
    cases s with
    | nil =>
      rw [r5Go]
      rfl
    | cons c rest =>
      rw [r5Go]
      by_cases hd : c.isDigit = true
      · by_cases hci : ciPrefix "-years-old".data (rest.dropWhile Char.isDigit) = true
        · rw [if_pos hd, if_pos hci]
          rw [List.append_assoc]
          apply noR5_digit_run
          · intro x hx
            rcases List.mem_cons.mp hx with rfl | hx2
            · exact hd
            · exact List.mem_takeWhile_imp hx2
          · apply noR5_nondigit_run
            · intro x hx
              have hmem : ∀ y ∈ ("-year-old".data : List Char), y.isDigit = false := by decide
              exact hmem x hx
            · apply ih
              have h1 : (rest.dropWhile Char.isDigit).length ≤ rest.length :=
                (List.dropWhile_suffix _).length_le
              simp only [List.length_cons] at hs
              simp [List.length_drop]
              omega
          · rw [show ("-year-old".data ++
                r5Go ((rest.dropWhile Char.isDigit).drop 10)).dropWhile Char.isDigit =
                "-year-old".data ++ r5Go ((rest.dropWhile Char.isDigit).drop 10) by
              rw [show ("-year-old".data : List Char) = '-' :: "year-old".data by decide]
              rw [List.cons_append, List.dropWhile_cons, if_neg (by decide)]]
            exact ys_frag _
        · rw [if_pos hd, if_neg hci]
          rw [noR5]
          simp only [Bool.and_eq_true]
          constructor
          · by_cases hq : ciPrefix "-years-old".data
                ((r5Go rest).dropWhile Char.isDigit) = true
            · exact absurd (t5_transport rest.length rest le_rfl hq) hci
            · rw [show ciPrefix "-years-old".data ((r5Go rest).dropWhile Char.isDigit) =
                false by simpa using hq]
              simp
          · exact ih rest (by simp at hs; omega)
      · rw [if_neg hd]
        rw [noR5]
        simp only [Bool.and_eq_true]
        constructor
        · simp [hd]
        · exact ih rest (by simp at hs; omega)

theorem rule5_idem (s : List Char) : rule5 (rule5 s) = rule5 s := by
  unfold rule5
  exact noR5_id (r5Go s) (noR5_out s.length s le_rfl)

theorem upperAZ_toLower (c : Char) (h : isUpperAZ c = true) :
    isUpperAZ c.toLower = false := by
  have hb : 65 ≤ c.toNat ∧ c.toNat ≤ 90 := by
    unfold isUpperAZ at h
    simp [Char.le_def] at h
    exact h
  have := char_upper_enum c hb.1 hb.2
  fin_cases this <;> decide

theorem noR7_id : ∀ (s : List Char), noR7 s = true → r7Go s = s := by
  intro s
  induction s with
  | nil => intro h; rw [r7Go]
  | cons c rest ih =>
    intro h
    rw [noR7] at h
    simp only [Bool.and_eq_true] at h
    have hc : ("SAE of ".data.isPrefixOf (c :: rest) &&
        ((((c :: rest).drop 7).head?.map isUpperAZ).getD false)) = false := by
      cases hq : ("SAE of ".data.isPrefixOf (c :: rest) &&
          ((((c :: rest).drop 7).head?.map isUpperAZ).getD false)) with
      | false => rfl
      | true =>
        rw [hq] at h
        simp at h
    rw [r7Go, if_neg (by rw [hc]; simp), ih h.2]

theorem tailAt7_step (m : Nat) (c : Char) (x : List Char) (hm : m < 7) :
    tailAt7 m (c :: x) =
      (("SAE of ".data.getD m ' ' == c) && tailAt7 (m + 1) x) := by
  unfold tailAt7
  have hdrop : "SAE of ".data.drop m =
      "SAE of ".data.getD m ' ' :: "SAE of ".data.drop (m + 1) := by
    rw [List.drop_eq_getElem_cons
      (show m < "SAE of ".data.length by rw [show "SAE of ".data.length = 7 by decide]; omega)]
    rw [List.getD_eq_getElem _ ' '
      (show m < "SAE of ".data.length by rw [show "SAE of ".data.length = 7 by decide]; omega)]
  rw [hdrop]
  rw [show (("SAE of ".data.getD m ' ' :: "SAE of ".data.drop (m + 1)).isPrefixOf (c :: x)) =
    (("SAE of ".data.getD m ' ' == c) && ("SAE of ".data.drop (m + 1)).isPrefixOf x) from rfl]
  have h1 : (c :: x).drop (7 - m) = x.drop (7 - (m + 1)) := by
    rw [show 7 - m = (7 - (m + 1)) + 1 by omega, List.drop_succ_cons]
  rw [h1, Bool.and_assoc]

theorem tailAt7_last (c : Char) (x : List Char) :
    tailAt7 7 (c :: x) = isUpperAZ c := by
  unfold tailAt7
  rw [show ("SAE of ".data.drop 7 : List Char) = [] by decide]
  simp [List.isPrefixOf]

theorem tailAt7_block_false (m : Nat) (hm1 : 1 ≤ m) (hm6 : m ≤ 6) (Z : List Char) :
    tailAt7 m ("SAE of ".data ++ Z) = false := by
  unfold tailAt7
  have hdrop : "SAE of ".data.drop m =
      "SAE of ".data.getD m ' ' :: "SAE of ".data.drop (m + 1) := by
    rw [List.drop_eq_getElem_cons
      (show m < "SAE of ".data.length by rw [show "SAE of ".data.length = 7 by decide]; omega)]
    rw [List.getD_eq_getElem _ ' '
      (show m < "SAE of ".data.length by rw [show "SAE of ".data.length = 7 by decide]; omega)]
  have hS : ("SAE of ".data.getD m ' ' == 'S') = false := by
    have hall : ∀ m' < 7, 1 ≤ m' → ("SAE of ".data.getD m' ' ' == 'S') = false := by decide
    exact hall m (by omega) hm1
  rw [show ("SAE of ".data ++ Z : List Char) = 'S' :: ("AE of ".data ++ Z) by
    rw [show ("SAE of ".data : List Char) = 'S' :: "AE of ".data by decide]
    rfl]
  rw [hdrop]
  rw [show (("SAE of ".data.getD m ' ' :: "SAE of ".data.drop (m + 1)).isPrefixOf
      ('S' :: ("AE of ".data ++ Z))) =
    (("SAE of ".data.getD m ' ' == 'S') &&
      ("SAE of ".data.drop (m + 1)).isPrefixOf ("AE of ".data ++ Z)) from rfl]
  rw [hS, Bool.false_and, Bool.false_and]

theorem r7cond_dec (c : Char) (x : List Char) :
    ("SAE of ".data.isPrefixOf (c :: x) &&
      ((((c :: x).drop 7).head?.map isUpperAZ).getD false)) =
    (('S' == c) && tailAt7 1 x) := by
  unfold tailAt7
  rw [show ("SAE of ".data.drop 1 : List Char) = "AE of ".data by decide]
  rw [show ("SAE of ".data : List Char) = 'S' :: "AE of ".data by decide]
  rw [show (('S' :: "AE of ".data).isPrefixOf (c :: x)) =
    (('S' == c) && ("AE of ".data).isPrefixOf x) from rfl]
  rw [show ((c :: x).drop 7 : List Char) = x.drop 6 from rfl]
  rw [show (7 - 1) = 6 from rfl]
  rw [Bool.and_assoc]

theorem t7b_transport :
    ∀ (n : Nat) (x : List Char), x.length ≤ n → ∀ m, 1 ≤ m → m ≤ 7 →
      tailAt7 m (r7Go x) = true → tailAt7 m x = true := by
  intro n
  induction n with
  | zero =>
    intro x hx m hm1 hm7 h
    have hnil : x = [] := List.eq_nil_of_length_eq_zero (by omega)
    subst hnil
    rw [r7Go] at h
    exact h
  | succ n ih =>
    intro x hx m hm1 hm7 h
    cases x with
    | nil =>
      rw [r7Go] at h
      exact h
    | cons c rest =>
      rw [r7Go] at h
      by_cases hc : ("SAE of ".data.isPrefixOf (c :: rest) &&
          ((((c :: rest).drop 7).head?.map isUpperAZ).getD false)) = true
      · rw [if_pos hc] at h
        by_cases hm6 : m ≤ 6
        · rw [tailAt7_block_false m hm1 hm6] at h
          exact absurd h (by simp)
        · have hm7e : m = 7 := by omega
          subst hm7e
          have hcS : c = 'S' := by
            have hc2 := hc
            simp only [Bool.and_eq_true] at hc2
            have hpre := hc2.1
            rw [show (((['S', 'A', 'E', ' ', 'o', 'f', ' '] : List Char)).isPrefixOf
                (c :: rest)) =
              (('S' == c) && (['A', 'E', ' ', 'o', 'f', ' '] : List Char).isPrefixOf rest)
              from rfl] at hpre
            simp only [Bool.and_eq_true] at hpre
            have h2 : 'S' = c := by simpa using hpre.1
            exact h2.symm
          subst hcS
          rw [tailAt7_last]
          decide
      · rw [if_neg hc] at h
        by_cases hm6 : m ≤ 6
        · have hstep : m < 7 := by omega
          rw [tailAt7_step m c _ hstep] at h
          rw [tailAt7_step m c rest hstep]
          simp only [Bool.and_eq_true] at h ⊢
          refine ⟨h.1, ih rest ?_ (m + 1) (by omega) (by omega) h.2⟩
          have hxx : rest.length + 1 ≤ n + 1 := by simpa using hx
          omega
        · have hm7e : m = 7 := by omega
          subst hm7e
          rw [tailAt7_last] at h
          rw [tailAt7_last]
          exact h

theorem noR7_block (l : Char) (R : List Char) (hu : isUpperAZ l = false)
    (hlS : ('S' == l) = false) (hR : noR7 R = true) :
    noR7 ("SAE of ".data ++ l :: R) = true := by
  rw [show ("SAE of ".data ++ l :: R : List Char) =
      'S' :: 'A' :: 'E' :: ' ' :: 'o' :: 'f' :: ' ' :: l :: R by
    rw [show ("SAE of ".data : List Char) = ['S', 'A', 'E', ' ', 'o', 'f', ' '] by decide]
    rfl]
  simp +decide [noR7, List.isPrefixOf, hu, hlS, hR]

theorem noR7_out : ∀ (n : Nat) (s : List Char), s.length ≤ n → noR7 (r7Go s) = true := by
  intro n
  induction n with
  | zero =>
    intro s hs
    have hnil : s = [] := List.eq_nil_of_length_eq_zero (by omega)
    subst hnil
    rw [r7Go]
    rfl
  | succ n ih =>
    intro s hs
    cases s with
    | nil =>
      rw [r7Go]
      rfl
    | cons c rest =>
      rw [r7Go]
      by_cases hc : ("SAE of ".data.isPrefixOf (c :: rest) &&
          ((((c :: rest).drop 7).head?.map isUpperAZ).getD false)) = true
      · rw [if_pos hc]
        have hc2 := hc
        simp only [Bool.and_eq_true] at hc2
        obtain ⟨u, z, hdz, huz⟩ : ∃ u z, (c :: rest).drop 7 = u :: z ∧ isUpperAZ u = true := by
          cases hd : (c :: rest).drop 7 with
          | nil =>
            rw [hd] at hc2
            simp at hc2
          | cons u z =>
            rw [hd] at hc2
            refine ⟨u, z, rfl, ?_⟩
            simpa using hc2.2
        rw [hdz]
        simp only [List.head?_cons, Option.getD_some, List.drop_succ_cons, List.drop_zero]
        apply noR7_block
        · exact upperAZ_toLower u huz
        · cases hq : ('S' == u.toLower) with
          | false => rfl
          | true =>
            exfalso
            have hSeq : 'S' = u.toLower := by simpa using hq
            have hfalse := upperAZ_toLower u huz
            rw [← hSeq] at hfalse
            exact absurd hfalse (by decide)
        · apply ih
          have hlz := congrArg List.length hdz
          simp [List.length_drop] at hlz
          have hxx : rest.length + 1 ≤ n + 1 := by simpa using hs
          omega
      · rw [if_neg hc]
        rw [noR7]
        simp only [Bool.and_eq_true]
        constructor
        · cases hq : ("SAE of ".data.isPrefixOf (c :: r7Go rest) &&
              ((((c :: r7Go rest).drop 7).head?.map isUpperAZ).getD false)) with
          | false => simp
          | true =>
            exfalso
            rw [r7cond_dec] at hq
            simp only [Bool.and_eq_true] at hq
            have ht := t7b_transport rest.length rest le_rfl 1 (by omega) (by omega) hq.2
            have : ("SAE of ".data.isPrefixOf (c :: rest) &&
                ((((c :: rest).drop 7).head?.map isUpperAZ).getD false)) = true := by
              rw [r7cond_dec]
              simp only [Bool.and_eq_true]
              exact ⟨hq.1, ht⟩
            exact absurd this hc
        · apply ih rest
          have hxx : rest.length + 1 ≤ n + 1 := by simpa using hs
          omega

theorem rule7_idem (s : List Char) : rule7 (rule7 s) = rule7 s := by
  unfold rule7
  exact noR7_id (r7Go s) (noR7_out s.length s le_rfl)

/-! ## C5 — idempotence of the business rules -/

/-- C5 counterexample: `apply_business_rules` is NOT idempotent as a whole:
on `2024-01-05-01-02` rule 2 rewrites the leading ISO span to give
`05-Jan-2024-01-02`, and a second application then matches the freshly
exposed ISO-shaped span `2024-01-02` inside the rewritten text and rewrites
again (to `05-Jan-02-Jan-2024`), so the pipeline changes the text twice. -/
theorem c5_counterexample_not_idempotent :
    apply_business_rules (apply_business_rules "2024-01-05-01-02") ≠
      apply_business_rules "2024-01-05-01-02" := by decide

/-- C5 (amended): each of the individual substitution rules 1 (terminology),
3 and 4 (clause lowercasing), 5 (age phrasing), 6 (race/ethnicity casing) and
7 (SAE-of lowercasing) IS idempotent on every input, but rule 2 (ISO-date
rewriting) is not, so the ordered pipeline as a whole is not idempotent
either (see the counterexample). -/
theorem c5_rules_individually_idempotent (s : List Char) :
    rule1 (rule1 s) = rule1 s ∧ rule3 (rule3 s) = rule3 s ∧
    rule4 (rule4 s) = rule4 s ∧ rule5 (rule5 s) = rule5 s ∧
    rule6 (rule6 s) = rule6 s ∧ rule7 (rule7 s) = rule7 s ∧
    ¬ (∀ t, rule2 (rule2 t) = rule2 t) :=
  ⟨rule1_idem s, rule3_idem s, rule4_idem s, rule5_idem s, rule6_idem s, rule7_idem s,
    fun hall => absurd (hall "2024-01-05-01-02".data) (by decide)⟩

end PatientNarrative
